import Mathlib

/-!
Verification of the Wesleyan Birder API backend.

The development shallowly embeds the parts of the code that the properties
below are about:

* `app/bird_identifier.py` — the identification client: the fixed 16-species
  allow-list, the prompt construction, the single outbound model request, the
  code-fence stripping of the model's textual reply, and the defensive JSON
  parse with its sentinel fallback.
* `app/schemas.py` — the request/response validation constraints the claims
  mention (the 5-field identification schema, the latitude/longitude bounds,
  the optional profile-update fields).
* `app/models.py` and `app/main.py` — the account and sighting records and the
  HTTP route handlers (register, login, profile read/update, identify, and the
  sighting create/list/get/delete operations), modelled as pure transition
  functions on an explicit application state.

Python strings are modelled as `List Char`; `str.strip`, `str.startswith`,
`str.endswith` and slicing are embedded directly.  `json.loads` is modelled by
an executable fuel-indexed recursive-descent parser over the JSON grammar that
Python's `json` module accepts (including `NaN`/`Infinity`, string escapes and
last-wins duplicate object keys); numbers keep their lexeme, which is enough
for every property here.  Machine floats for coordinates are modelled as `ℚ`:
the only operation performed on them is the order comparison of the bound
check, which is exact.
-/

namespace WesleyanBirder

/-! ## Python string primitives (over `List Char`) -/

/-- The characters `str.strip()` removes (the ASCII whitespace Python treats
as space; the unicode cases do not occur in any input considered here). -/
def isPySpace (c : Char) : Bool :=
  c == ' ' || c == '\t' || c == '\n' || c == '\r' || c == '\x0b' || c == '\x0c'

/-- Python `s.strip()`: drop whitespace from both ends. -/
def pyStrip (s : List Char) : List Char :=
  ((s.dropWhile isPySpace).reverse.dropWhile isPySpace).reverse

/-- Python `s.startswith(p)`. -/
def pyStartsWith (p s : List Char) : Bool := List.isPrefixOf p s

/-- Python `s.endswith(p)`. -/
def pyEndsWith (p s : List Char) : Bool := List.isSuffixOf p s

/-! ## JSON values and the model of `json.loads`

`json.loads` is external library code; it is embedded as an executable
recursive-descent parser of the grammar CPython's `json` module accepts in its
default configuration.  Numbers are kept as their source lexeme (no property
below depends on numeric value), and object fields keep Python's `dict`
semantics: insertion order with a later duplicate key overwriting in place. -/

inductive Json where
  | null : Json
  | bool (b : Bool) : Json
  | num (lexeme : List Char) : Json
  | str (s : List Char) : Json
  | arr (elems : List Json) : Json
  | obj (fields : List (List Char × Json)) : Json

/-- JSON inter-token whitespace (what `json`'s scanner skips). -/
def isJsonWs (c : Char) : Bool :=
  c == ' ' || c == '\t' || c == '\n' || c == '\r'

def skipWs (s : List Char) : List Char := s.dropWhile isJsonWs

/-- `dict` update: a repeated key overwrites in place, otherwise append. -/
def upsert (k : List Char) (v : Json) :
    List (List Char × Json) → List (List Char × Json)
  | [] => [(k, v)]
  | (k', v') :: rest =>
    if k' = k then (k, v) :: rest else (k', v') :: upsert k v rest

def hexVal (c : Char) : Option Nat :=
  if '0' ≤ c ∧ c ≤ '9' then some (c.toNat - '0'.toNat)
  else if 'a' ≤ c ∧ c ≤ 'f' then some (c.toNat - 'a'.toNat + 10)
  else if 'A' ≤ c ∧ c ≤ 'F' then some (c.toNat - 'A'.toNat + 10)
  else none

/-- The single-character escapes of JSON strings. -/
def escChar (c : Char) : Option Char :=
  if c = '"' then some '"'
  else if c = '\\' then some '\\'
  else if c = '/' then some '/'
  else if c = 'b' then some '\x08'
  else if c = 'f' then some '\x0c'
  else if c = 'n' then some '\n'
  else if c = 'r' then some '\r'
  else if c = 't' then some '\t'
  else none

/-- Four hex digits of a `\\u` escape. -/
def parse4Hex : List Char → Option (Nat × List Char)
  | a :: b :: c :: d :: rest =>
    match hexVal a, hexVal b, hexVal c, hexVal d with
    | some va, some vb, some vc, some vd =>
      some (((va * 16 + vb) * 16 + vc) * 16 + vd, rest)
    | _, _, _, _ => none
  | _ => none

/-- The body of a string literal, after the opening quote: decoded content and
the remainder after the closing quote.  Control characters must be escaped
(`strict=True`); a high/low `\\u` surrogate pair is combined.  (A lone
surrogate, which Python keeps as an unpaired code unit that `Char` cannot
carry, is approximated by `Char.ofNat`; no input considered here contains
one.) -/
def parseStringBody : Nat → List Char → Option (List Char × List Char)
  | 0, _ => none
  | _ + 1, [] => none
  | fuel + 1, c :: rest =>
    if c = '"' then some ([], rest)
    else if c = '\\' then
      match rest with
      | [] => none
      | e :: rest2 =>
        match escChar e with
        | some d =>
          match parseStringBody fuel rest2 with
          | none => none
          | some (tl, rem) => some (d :: tl, rem)
        | none =>
          if e = 'u' then
            match parse4Hex rest2 with
            | none => none
            | some (n, rest3) =>
              if 0xD800 ≤ n ∧ n < 0xDC00 then
                match rest3 with
                | '\\' :: 'u' :: rest4 =>
                  match parse4Hex rest4 with
                  | none => none
                  | some (m, rest5) =>
                    if 0xDC00 ≤ m ∧ m < 0xE000 then
                      match parseStringBody fuel rest5 with
                      | none => none
                      | some (tl, rem) =>
                        some (Char.ofNat
                          (0x10000 + (n - 0xD800) * 0x400 + (m - 0xDC00)) :: tl, rem)
                    else
                      match parseStringBody fuel ('\\' :: 'u' :: rest4) with
                      | none => none
                      | some (tl, rem) => some (Char.ofNat n :: tl, rem)
                | _ =>
                  match parseStringBody fuel rest3 with
                  | none => none
                  | some (tl, rem) => some (Char.ofNat n :: tl, rem)
              else
                match parseStringBody fuel rest3 with
                | none => none
                | some (tl, rem) => some (Char.ofNat n :: tl, rem)
          else none
    else if c.toNat < 0x20 then none
    else
      match parseStringBody fuel rest with
      | none => none
      | some (tl, rem) => some (c :: tl, rem)

def isDigitChar (c : Char) : Bool := '0' ≤ c && c ≤ '9'

/-- The integer part of a number lexeme: `0`, or a nonzero digit followed by
digits. -/
def parseIntPart : List Char → Option (List Char × List Char)
  | [] => none
  | c :: rest =>
    if c = '0' then some (['0'], rest)
    else if isDigitChar c then
      some (c :: rest.takeWhile isDigitChar, rest.dropWhile isDigitChar)
    else none

/-- Optional fraction part `.digits` of a number lexeme. -/
def parseFracPart : List Char → Option (List Char × List Char)
  | [] => some ([], [])
  | c :: rest =>
    if c = '.' then
      if rest.takeWhile isDigitChar = [] then none
      else some ('.' :: rest.takeWhile isDigitChar, rest.dropWhile isDigitChar)
    else some ([], c :: rest)

/-- Optional exponent part `[eE][+-]?digits` of a number lexeme. -/
def parseExpPart : List Char → Option (List Char × List Char)
  | [] => some ([], [])
  | [c] => if c = 'e' ∨ c = 'E' then none else some ([], [c])
  | c :: d :: rest2 =>
    if c = 'e' ∨ c = 'E' then
      if d = '+' ∨ d = '-' then
        if rest2.takeWhile isDigitChar = [] then none
        else some (c :: d :: rest2.takeWhile isDigitChar,
                   rest2.dropWhile isDigitChar)
      else if (d :: rest2).takeWhile isDigitChar = [] then none
      else some (c :: (d :: rest2).takeWhile isDigitChar,
                 (d :: rest2).dropWhile isDigitChar)
    else some ([], c :: d :: rest2)

/-- A number lexeme after an optional leading minus has been noted. -/
def parseNumBody (s : List Char) : Option (List Char × List Char) :=
  match parseIntPart s with
  | none => none
  | some (ip, s1) =>
    match parseFracPart s1 with
    | none => none
    | some (fp, s2) =>
      match parseExpPart s2 with
      | none => none
      | some (ep, s3) => some (ip ++ fp ++ ep, s3)

mutual

/-- One JSON value at the head of the input (leading whitespace already
consumed), returning the value and the rest of the input.  This is the
grammar CPython's `json.loads` accepts by default, `NaN` / `Infinity` /
`-Infinity` included. -/
def parseValue : Nat → List Char → Option (Json × List Char)
  | 0, _ => none
  | _ + 1, [] => none
  | fuel + 1, c :: rest =>
    if c = '"' then
      match parseStringBody (rest.length + 1) rest with
      | none => none
      | some (content, rem) => some (Json.str content, rem)
    else if c = '\x7b' then
      if (skipWs rest).take 1 = "\x7d".toList then
        some (Json.obj [], (skipWs rest).drop 1)
      else parseMembers fuel (skipWs rest) []
    else if c = '[' then
      if (skipWs rest).take 1 = "]".toList then
        some (Json.arr [], (skipWs rest).drop 1)
      else parseElements fuel (skipWs rest) []
    else if c = 't' then
      if rest.take 3 = "rue".toList then some (Json.bool true, rest.drop 3)
      else none
    else if c = 'f' then
      if rest.take 4 = "alse".toList then some (Json.bool false, rest.drop 4)
      else none
    else if c = 'n' then
      if rest.take 3 = "ull".toList then some (Json.null, rest.drop 3)
      else none
    else if c = 'N' then
      if rest.take 2 = "aN".toList then some (Json.num "NaN".toList, rest.drop 2)
      else none
    else if c = 'I' then
      if rest.take 7 = "nfinity".toList then
        some (Json.num "Infinity".toList, rest.drop 7)
      else none
    else if c = '-' then
      if rest.take 8 = "Infinity".toList then
        some (Json.num "-Infinity".toList, rest.drop 8)
      else
        match parseNumBody rest with
        | none => none
        | some (lex, rem) => some (Json.num ('-' :: lex), rem)
    else if isDigitChar c then
      match parseNumBody (c :: rest) with
      | none => none
      | some (lex, rem) => some (Json.num lex, rem)
    else none

/-- The members of an object, after `{` and leading whitespace, when the
object is not empty. -/
def parseMembers : Nat → List Char → List (List Char × Json) →
    Option (Json × List Char)
  | 0, _, _ => none
  | _ + 1, [], _ => none
  | fuel + 1, c :: rest1, acc =>
    if c = '"' then
      match parseStringBody (rest1.length + 1) rest1 with
      | none => none
      | some (key, afterKey) =>
        if (skipWs afterKey).take 1 = ":".toList then
          match parseValue fuel (skipWs ((skipWs afterKey).drop 1)) with
          | none => none
          | some (v, afterVal) =>
            if (skipWs afterVal).take 1 = ",".toList then
              parseMembers fuel (skipWs ((skipWs afterVal).drop 1))
                (upsert key v acc)
            else if (skipWs afterVal).take 1 = "\x7d".toList then
              some (Json.obj (upsert key v acc), (skipWs afterVal).drop 1)
            else none
        else none
    else none

/-- The elements of an array, after `[` and leading whitespace, when the
array is not empty. -/
def parseElements : Nat → List Char → List Json → Option (Json × List Char)
  | 0, _, _ => none
  | fuel + 1, s, acc =>
    match parseValue fuel s with
    | none => none
    | some (v, afterVal) =>
      if (skipWs afterVal).take 1 = ",".toList then
        parseElements fuel (skipWs ((skipWs afterVal).drop 1)) (acc ++ [v])
      else if (skipWs afterVal).take 1 = "]".toList then
        some (Json.arr (acc ++ [v]), (skipWs afterVal).drop 1)
      else none

end

/-- `json.loads`: skip surrounding whitespace, read exactly one value, and
reject trailing text (Python's "Extra data" error).  Any failure is
`json.JSONDecodeError`, modelled as `none`.  The fuel `2 * length + 8`
strictly bounds the recursion depth, every recursive call being separated
from the previous one by at least one consumed input character per two
calls. -/
def json_loads (s : List Char) : Option Json :=
  match parseValue (2 * s.length + 8) (skipWs s) with
  | some (v, rest) => if skipWs rest = [] then some v else none
  | none => none

/-- The characters a JSON value can begin with (the dispatch set of
`parseValue`). -/
def jsonStarter (c : Char) : Bool :=
  c == '"' || c == '\x7b' || c == '[' || c == 't' || c == 'f' || c == 'n' ||
  c == 'N' || c == 'I' || c == '-' || isDigitChar c

/-- Whether a text begins with a character a JSON value can begin with. -/
def jsonStarterHead (l : List Char) : Bool :=
  match l.head? with
  | some c => jsonStarter c
  | none => false

/-- The characters a JSON value can end with: a closing quote, bracket or
brace, the final letter of `true`/`false`/`null`/`NaN`/`Infinity`, or a
digit. -/
def isJsonEndChar (c : Char) : Bool :=
  c == '"' || c == ']' || c == '\x7d' || c == 'e' || c == 'l' || c == 'N' ||
  c == 'y' || isDigitChar c

/-- Whether a text ends with a character a JSON value can end with. -/
def jsonEndCharLast (l : List Char) : Bool :=
  match l.getLast? with
  | some c => isJsonEndChar c
  | none => false

/-- After a successful parse of one construct, the input splits as a nonempty
consumed prefix — ending in a JSON end character — followed by the rest. -/
def endsWellFrom (s rest : List Char) : Prop :=
  ∃ pre, s = pre ++ rest ∧ pre ≠ [] ∧ jsonEndCharLast pre = true

/-- Field lookup on an object value (any other shape has no fields). -/
def Json.getField (j : Json) (k : String) : Option Json :=
  match j with
  | .obj fs => (fs.find? (fun p => p.1 == k.toList)).map Prod.snd
  | _ => none

def Json.isStr : Json → Bool
  | .str _ => true
  | _ => false

def Json.isBool : Json → Bool
  | .bool _ => true
  | _ => false

/-- The 5-field identification schema of `schemas.BirdIdentificationResponse`:
four required string fields and one required boolean field.  This is what
`BirdIdentificationResponse(**result)` accepts (extra keys are ignored by the
model's config, missing or wrongly-typed keys raise a validation error). -/
def conforms_schema (j : Json) : Bool :=
  (j.getField "common_name").any Json.isStr &&
  (j.getField "scientific_name").any Json.isStr &&
  (j.getField "wesleyan_fact").any Json.isStr &&
  (j.getField "confidence").any Json.isStr &&
  (j.getField "in_wesleyan_field_guide").any Json.isBool

/-! ## The identification client (`app/bird_identifier.py`) -/

/-- The fixed 16-species allow-list embedded in the prompt. -/
def WESLEYAN_FIELD_GUIDE_BIRDS : List String := [
  "Northern Cardinal",
  "American Robin",
  "Blue Jay",
  "House Sparrow",
  "European Starling",
  "American Crow",
  "Mourning Dove",
  "Red-tailed Hawk",
  "American Goldfinch",
  "Black-capped Chickadee",
  "White-breasted Nuthatch",
  "Downy Woodpecker",
  "Carolina Wren",
  "Eastern Bluebird",
  "Song Sparrow",
  "Dark-eyed Junco"]

def wesleyan_birds_list : String :=
  String.intercalate ", " WESLEYAN_FIELD_GUIDE_BIRDS

/-- The instruction text the client sends next to the image (the Python
f-string with `wesleyan_birds_list` interpolated; `\x7b\x7b` in the source
renders as a literal brace). -/
def identification_prompt : String :=
  "You are an expert ornithologist for the Wesleyan Birder app. Analyze this bird image and provide:\n\n" ++
  "1. **Common Name**: The bird\x27s common English name\n" ++
  "2. **Scientific Name**: The scientific name in \"Genus species\" format\n" ++
  "3. **Wesleyan Fact**: A fact connecting this bird to Wesleyan University or Connecticut. If this bird is one of the 16 species in the Field Guide to the Birds of Wesleyan (" ++
  wesleyan_birds_list ++
  "), mention this. The Wesleyan Cardinal is the university mascot, so the Northern Cardinal is especially significant.\n\n" ++
  "Respond in this exact JSON format:\n" ++
  "\x7b\n    \"common_name\": \"Bird Common Name\",\n    \"scientific_name\": \"Genus species\",\n    \"wesleyan_fact\": \"A Wesleyan-specific fact about this bird\",\n    \"confidence\": \"high/medium/low\",\n    \"in_wesleyan_field_guide\": true/false\n\x7d\n\n" ++
  "If you cannot identify the bird or the image doesn\x27t contain a bird, respond with:\n" ++
  "\x7b\n    \"common_name\": \"Unknown\",\n    \"scientific_name\": \"Unknown\",\n    \"wesleyan_fact\": \"Unable to identify the bird in this image. Try a clearer photo!\",\n    \"confidence\": \"none\",\n    \"in_wesleyan_field_guide\": false\n\x7d"

/-- One part of the outbound `generate_content` request. -/
inductive RequestPart where
  | from_bytes (data : List Nat) (mime_type : String)
  | from_text (text : String)
deriving DecidableEq

structure ModelRequest where
  model : String
  parts : List RequestPart
deriving DecidableEq

/-- The single outbound request `identify_bird` issues: the raw image bytes
declared as `image/jpeg`, and the prompt.  (The source also base64-encodes the
image into a local variable that is never used afterwards.) -/
def identify_bird_request (image_data : List Nat) : ModelRequest :=
  { model := "gemini-2.5-flash",
    parts := [RequestPart.from_bytes image_data "image/jpeg",
              RequestPart.from_text identification_prompt] }

/-- The MIME types declared by the byte parts of a request. -/
def declared_mime_types (r : ModelRequest) : List String :=
  r.parts.filterMap fun p =>
    match p with
    | .from_bytes _ m => some m
    | .from_text _ => none

/-- The reply post-processing of `identify_bird`, up to the argument of
`json.loads`:

    response_text = response.text.strip()
    if response_text.startswith("```json"): response_text = response_text[7:]
    if response_text.startswith("```"):     response_text = response_text[3:]
    if response_text.endswith("```"):       response_text = response_text[:-3]
    json.loads(response_text.strip())
-/
def fence_step_json (s : List Char) : List Char :=
  if pyStartsWith "```json".toList s then s.drop 7 else s

def fence_step_plain (s : List Char) : List Char :=
  if pyStartsWith "```".toList s then s.drop 3 else s

def fence_step_close (s : List Char) : List Char :=
  if pyEndsWith "```".toList s then s.take (s.length - 3) else s

def strip_code_fences (s : List Char) : List Char :=
  pyStrip (fence_step_close (fence_step_plain (fence_step_json (pyStrip s))))

/-- The fixed payload built in the `except json.JSONDecodeError` arm. -/
def PARSE_FAILURE_SENTINEL : Json := Json.obj [
  ("common_name".toList, Json.str "Unknown".toList),
  ("scientific_name".toList, Json.str "Unknown".toList),
  ("wesleyan_fact".toList,
    Json.str "Could not parse the identification result. Please try again.".toList),
  ("confidence".toList, Json.str "none".toList),
  ("in_wesleyan_field_guide".toList, Json.bool false)]

/-- The value `identify_bird` returns for a given model reply text: the parsed
(fence-stripped) reply, or the sentinel when `json.loads` raises
`JSONDecodeError`.  Only that exception is caught; a successful parse is
returned as-is, whatever its shape. -/
def identify_bird_parse (reply : String) : Json :=
  match json_loads (strip_code_fences reply.toList) with
  | some result => result
  | none => PARSE_FAILURE_SENTINEL

/-! ## Records (`app/models.py`) -/

/-- A row of the `users` table.  Database timestamps are modelled as `Nat`
ticks of an abstract clock. -/
structure User where
  id : Nat
  username : String
  email : String
  hashed_password : String
  orcid_id : Option String
  created_at : Nat
deriving DecidableEq

/-- A row of the `sightings` table.  The `Float` coordinate columns are
modelled as `ℚ`: the only operation ever applied to them is the exact order
comparison of the bound check. -/
structure Sighting where
  id : Nat
  bird_name : String
  scientific_name : Option String
  timestamp : Nat
  latitude : Option ℚ
  longitude : Option ℚ
  mansion_notes : Option String
  wesleyan_fact : Option String
  user_id : Nat
deriving DecidableEq

/-! ## Request schemas (`app/schemas.py`) -/

structure UserCreate where
  username : String
  email : String
  password : String
  orcid_id : Option String
deriving DecidableEq

/-- `UserUpdate`: both fields optional, `None` meaning absent. -/
structure UserUpdate where
  email : Option String
  orcid_id : Option String
deriving DecidableEq

structure SightingCreate where
  bird_name : String
  scientific_name : Option String
  latitude : Option ℚ
  longitude : Option ℚ
  mansion_notes : Option String
  wesleyan_fact : Option String
deriving DecidableEq

/-- The `Field(ge=..., le=...)` bounds of `SightingCreate`: an absent
coordinate passes, a present one must lie in the closed interval. -/
def sightingCreate_valid (p : SightingCreate) : Bool :=
  (match p.latitude with
   | none => true
   | some x => decide (-90 ≤ x) && decide (x ≤ 90)) &&
  (match p.longitude with
   | none => true
   | some y => decide (-180 ≤ y) && decide (y ≤ 180))

/-! ## The HTTP layer (`app/main.py`)

Each route handler is a pure function from the application state and its
inputs to a response and the successor state.  A raised `HTTPException`
becomes an error response with an unchanged state (the session commits
nothing). -/

structure AppState where
  users : List User
  sightings : List Sighting
  nextUserId : Nat
  nextSightingId : Nat
  clock : Nat
deriving DecidableEq

/-- Modelled from the spec: `app/auth.py` is not among the source files; the
spec says only that the auth module does "password hashing/verification".  No
property below depends on the hash beyond it being a fixed function, so a
tagged stand-in is used. -/
def get_password_hash (password : String) : String :=
  "bcrypt-model:" ++ password

/-- Modelled from the spec: counterpart of `get_password_hash` (also from the
missing `app/auth.py`). -/
def verify_password (plain hashed : String) : Bool :=
  get_password_hash plain == hashed

/-- `POST /auth/register`: reject when any existing row matches the new
username *or* the new email; otherwise insert. -/
def register (st : AppState) (user : UserCreate) :
    Except (Nat × String) User × AppState :=
  if st.users.any (fun u => u.username == user.username || u.email == user.email) then
    (Except.error (400, "Username or email already registered"), st)
  else
    let db_user : User := {
      id := st.nextUserId,
      username := user.username,
      email := user.email,
      hashed_password := get_password_hash user.password,
      orcid_id := user.orcid_id,
      created_at := st.clock }
    (Except.ok db_user,
     { st with users := st.users ++ [db_user], nextUserId := st.nextUserId + 1 })

/-- `POST /auth/login`: look the username up and check the password. -/
def login (st : AppState) (username password : String) :
    Except (Nat × String) String × AppState :=
  match st.users.find? (fun u => u.username == username) with
  | none => (Except.error (401, "Incorrect username or password"), st)
  | some u =>
    if verify_password password u.hashed_password then
      (Except.ok ("token-for:" ++ username), st)
    else
      (Except.error (401, "Incorrect username or password"), st)

/-- The two field assignments of `update_user_profile`.  `if user_update.email:`
is Python truthiness (skips `None` and the empty string); the ORCID branch
tests `is not None` only. -/
def apply_user_update (u : User) (user_update : UserUpdate) : User :=
  let u1 :=
    match user_update.email with
    | some e => if e ≠ "" then { u with email := e } else u
    | none => u
  match user_update.orcid_id with
  | some o => { u1 with orcid_id := some o }
  | none => u1

/-- `PUT /users/me`, given the authenticated user's id. -/
def update_user_profile (st : AppState) (uid : Nat) (user_update : UserUpdate) :
    Except (Nat × String) User × AppState :=
  match (st.users.map fun u =>
      if u.id = uid then apply_user_update u user_update else u).find?
      (fun u => u.id == uid) with
  | some u =>
    (Except.ok u,
     { st with users := st.users.map fun u =>
         if u.id = uid then apply_user_update u user_update else u })
  | none => (Except.error (401, "Could not validate credentials"), st)

/-- `POST /identify`: gate on the declared content type, run the client on the
model's reply text, and validate the result against
`BirdIdentificationResponse` (a non-conforming dict raises there, surfacing
as a server error). -/
def identify_bird_endpoint (st : AppState)
    (content_type : String) (model_reply : String) :
    Except (Nat × String) Json × AppState :=
  if ¬ pyStartsWith "image/".toList content_type.toList then
    (Except.error (400, "Please upload an image file"), st)
  else if conforms_schema (identify_bird_parse model_reply) then
    (Except.ok (identify_bird_parse model_reply), st)
  else
    (Except.error (500, "Internal Server Error"), st)

/-- `POST /sightings`: body validation happens at the framework boundary
(422 on a bound violation), then the handler inserts the row. -/
def create_sighting (st : AppState) (uid : Nat) (sighting : SightingCreate) :
    Except (Nat × String) Sighting × AppState :=
  if ¬ sightingCreate_valid sighting then
    (Except.error (422, "validation error"), st)
  else
    let db_sighting : Sighting := {
      id := st.nextSightingId,
      bird_name := sighting.bird_name,
      scientific_name := sighting.scientific_name,
      timestamp := st.clock,
      latitude := sighting.latitude,
      longitude := sighting.longitude,
      mansion_notes := sighting.mansion_notes,
      wesleyan_fact := sighting.wesleyan_fact,
      user_id := uid }
    (Except.ok db_sighting,
     { st with sightings := st.sightings ++ [db_sighting],
               nextSightingId := st.nextSightingId + 1 })

/-- `GET /sightings`: the caller's rows, paginated with offset/limit. -/
def get_sightings (st : AppState) (uid skip limit : Nat) :
    Except (Nat × String) (List Sighting) × AppState :=
  (Except.ok (((st.sightings.filter (fun s => s.user_id == uid)).drop skip).take limit), st)

/-- `GET /sightings/{id}`: a single query filtered by id *and* owner. -/
def get_sighting (st : AppState) (uid sighting_id : Nat) :
    Except (Nat × String) Sighting × AppState :=
  match st.sightings.find? (fun s => s.id == sighting_id && s.user_id == uid) with
  | none => (Except.error (404, "Sighting not found in your Life List"), st)
  | some s => (Except.ok s, st)

/-- `DELETE /sightings/{id}`: the same combined lookup; the found row is
deleted, absence raises 404 before any write. -/
def delete_sighting (st : AppState) (uid sighting_id : Nat) :
    Except (Nat × String) String × AppState :=
  match st.sightings.find? (fun s => s.id == sighting_id && s.user_id == uid) with
  | none => (Except.error (404, "Sighting not found in your Life List"), st)
  | some _ =>
    (Except.ok "Sighting removed from your Life List",
     { st with sightings :=
         st.sightings.eraseP (fun s => s.id == sighting_id && s.user_id == uid) })

/-! ## The exposed surface as one transition relation -/

/-- One request against the API.  Authenticated requests carry the account id
the bearer token resolves to. -/
inductive Request where
  | auth_register (payload : UserCreate)
  | auth_login (username password : String)
  | users_me_get (uid : Nat)
  | users_me_put (uid : Nat) (upd : UserUpdate)
  | identify (uid : Nat) (content_type : String) (image : List Nat) (model_reply : String)
  | sightings_post (uid : Nat) (payload : SightingCreate)
  | sightings_list (uid : Nat) (skip limit : Nat)
  | sightings_get (uid : Nat) (sighting_id : Nat)
  | sightings_delete (uid : Nat) (sighting_id : Nat)
  | root

/-- A rendered response. -/
inductive Outcome where
  | user_body (u : User)
  | token_body (t : String)
  | json_body (j : Json)
  | sighting_body (s : Sighting)
  | sighting_list_body (l : List Sighting)
  | message_body (m : String)
  | failure (status : Nat) (detail : String)

/-- Whether a bearer token resolves to an account (`get_current_user`,
modelled from the spec: `app/auth.py` is not among the source files; the spec
says every non-public request is authenticated by token verification, 401 on
failure). -/
def authed (st : AppState) (uid : Nat) : Bool :=
  st.users.any (fun u => u.id == uid)

def requireAuth (st : AppState) (uid : Nat)
    (k : Unit → Outcome × AppState) : Outcome × AppState :=
  if authed st uid then k () else (Outcome.failure 401 "Could not validate credentials", st)

/-- Render a handler result: a raised `HTTPException` becomes its error
response, a return value is rendered by the endpoint's response model. -/
def toOutcome {α : Type} (render : α → Outcome) :
    Except (Nat × String) α × AppState → Outcome × AppState
  | (Except.ok a, st) => (render a, st)
  | (Except.error (c, d), st) => (Outcome.failure c d, st)

/-- The dispatcher: every exposed operation of `app/main.py`. -/
def handle (st : AppState) (req : Request) : Outcome × AppState :=
  match req with
  | .auth_register p => toOutcome Outcome.user_body (register st p)
  | .auth_login u p => toOutcome Outcome.token_body (login st u p)
  | .users_me_get uid =>
    requireAuth st uid fun _ =>
      match st.users.find? (fun u => u.id == uid) with
      | some u => (Outcome.user_body u, st)
      | none => (Outcome.failure 401 "Could not validate credentials", st)
  | .users_me_put uid upd =>
    requireAuth st uid fun _ =>
      toOutcome Outcome.user_body (update_user_profile st uid upd)
  | .identify uid ct _image reply =>
    requireAuth st uid fun _ =>
      toOutcome Outcome.json_body (identify_bird_endpoint st ct reply)
  | .sightings_post uid p =>
    requireAuth st uid fun _ =>
      toOutcome Outcome.sighting_body (create_sighting st uid p)
  | .sightings_list uid skip limit =>
    requireAuth st uid fun _ =>
      toOutcome Outcome.sighting_list_body (get_sightings st uid skip limit)
  | .sightings_get uid sid =>
    requireAuth st uid fun _ =>
      toOutcome Outcome.sighting_body (get_sighting st uid sid)
  | .sightings_delete uid sid =>
    requireAuth st uid fun _ =>
      toOutcome Outcome.message_body (delete_sighting st uid sid)
  | .root => (Outcome.message_body "Welcome to Wesleyan Birder API", st)

/-- The state after a sequence of requests. -/
def applySeq (st : AppState) (reqs : List Request) : AppState :=
  reqs.foldl (fun s r => (handle s r).2) st

/-! ## Concrete test vectors -/

/-- A well-formed model reply for the mascot. -/
def cardinalReply : String :=
  "\x7b\n    \"common_name\": \"Northern Cardinal\",\n    \"scientific_name\": \"Cardinalis cardinalis\",\n    \"wesleyan_fact\": \"The Wesleyan Cardinal is the university mascot.\",\n    \"confidence\": \"high\",\n    \"in_wesleyan_field_guide\": true\n\x7d"

/-- The structured value `cardinalReply` denotes. -/
def cardinalValue : Json := Json.obj [
  ("common_name".toList, Json.str "Northern Cardinal".toList),
  ("scientific_name".toList, Json.str "Cardinalis cardinalis".toList),
  ("wesleyan_fact".toList,
    Json.str "The Wesleyan Cardinal is the university mascot.".toList),
  ("confidence".toList, Json.str "high".toList),
  ("in_wesleyan_field_guide".toList, Json.bool true)]

/-- A schema-shaped model reply whose guide flag contradicts the allow-list. -/
def pigeonReply : String :=
  "\x7b\"common_name\": \"Pigeon\", \"scientific_name\": \"Columba livia\", \"wesleyan_fact\": \"It lives on Foss Hill.\", \"confidence\": \"high\", \"in_wesleyan_field_guide\": true\x7d"

/-- The structured value `pigeonReply` denotes. -/
def pigeonValue : Json := Json.obj [
  ("common_name".toList, Json.str "Pigeon".toList),
  ("scientific_name".toList, Json.str "Columba livia".toList),
  ("wesleyan_fact".toList, Json.str "It lives on Foss Hill.".toList),
  ("confidence".toList, Json.str "high".toList),
  ("in_wesleyan_field_guide".toList, Json.bool true)]

/-- Two registered accounts and one sighting owned by the first. -/
def aliceUser : User :=
  { id := 1, username := "alice", email := "alice@wesleyan.edu",
    hashed_password := get_password_hash "redredbird",
    orcid_id := some "0000-0002-1825-0097", created_at := 0 }

def bobUser : User :=
  { id := 2, username := "bob", email := "bob@wesleyan.edu",
    hashed_password := get_password_hash "bluebluejay",
    orcid_id := none, created_at := 1 }

def aliceSighting : Sighting :=
  { id := 3, bird_name := "Northern Cardinal",
    scientific_name := some "Cardinalis cardinalis", timestamp := 2,
    latitude := some 41, longitude := some (-72),
    mansion_notes := some "On the roof of a mansion",
    wesleyan_fact := some "University mascot", user_id := 1 }

def demoState : AppState :=
  { users := [aliceUser, bobUser], sightings := [aliceSighting],
    nextUserId := 3, nextSightingId := 4, clock := 5 }

/-! ## Theorems -/

set_option maxRecDepth 100000

/-- C5: for every model reply whose text, after the fence-stripping step, is
well-formed JSON matching the 5-field schema, `identify_bird` returns exactly
that structured data, with no field added, removed, or altered. -/
theorem identify_bird_returns_parsed_reply (t : String) (v : Json)
    (hparse : json_loads (strip_code_fences t.toList) = some v)
    (hschema : conforms_schema v = true) :
    identify_bird_parse t = v := by
  unfold identify_bird_parse
  rw [hparse]

/-- Witness for C5: the Northern Cardinal reply comes back verbatim. -/
theorem identify_bird_returns_parsed_reply_witness :
    identify_bird_parse cardinalReply = cardinalValue :=
  identify_bird_returns_parsed_reply cardinalReply cardinalValue rfl rfl

/-- C1, counterexample: the reply `"{}"` is valid JSON that does not conform
to the 5-field schema; `identify_bird` returns it as-is — neither the
sentinel, nor a schema-conforming value.  Only `json.JSONDecodeError` is
caught; a successful parse of the wrong shape passes through. -/
theorem identify_bird_schema_postcondition_counterexample :
    identify_bird_parse "\x7b\x7d" = Json.obj [] ∧
    conforms_schema (identify_bird_parse "\x7b\x7d") = false ∧
    identify_bird_parse "\x7b\x7d" ≠ PARSE_FAILURE_SENTINEL := by
  refine ⟨rfl, rfl, ?_⟩
  rw [show identify_bird_parse "\x7b\x7d" = Json.obj [] from rfl]
  simp [PARSE_FAILURE_SENTINEL]

/-- C1, amended: for every model reply whose fence-stripped text is not
decodable as JSON at all (empty string, truncated JSON, prose-only text
included), `identify_bird` returns the sentinel failure shape, whose
`wesleyan_fact` is the "could not parse" message and which conforms to the
5-field schema; a decodable reply is returned as parsed even when it does not
conform, the schema being enforced at the endpoint's response model instead. -/
theorem identify_bird_sentinel_on_undecodable (t : String)
    (h : json_loads (strip_code_fences t.toList) = none) :
    identify_bird_parse t = PARSE_FAILURE_SENTINEL ∧
    conforms_schema PARSE_FAILURE_SENTINEL = true ∧
    PARSE_FAILURE_SENTINEL.getField "wesleyan_fact" =
      some (Json.str "Could not parse the identification result. Please try again.".toList) := by
  refine ⟨?_, rfl, rfl⟩
  unfold identify_bird_parse
  rw [h]

/-- Witness for the amended C1: the empty reply, a truncated JSON reply, and a
prose-only reply each produce the sentinel. -/
theorem identify_bird_sentinel_on_undecodable_witness :
    (identify_bird_parse "" = PARSE_FAILURE_SENTINEL ∧
     conforms_schema PARSE_FAILURE_SENTINEL = true ∧
     PARSE_FAILURE_SENTINEL.getField "wesleyan_fact" =
       some (Json.str "Could not parse the identification result. Please try again.".toList)) ∧
    identify_bird_parse "\x7b\"common_name\": \"Northern" = PARSE_FAILURE_SENTINEL ∧
    identify_bird_parse "I think this is a cardinal." = PARSE_FAILURE_SENTINEL :=
  ⟨identify_bird_sentinel_on_undecodable "" rfl,
   (identify_bird_sentinel_on_undecodable "\x7b\"common_name\": \"Northern" rfl).1,
   (identify_bird_sentinel_on_undecodable "I think this is a cardinal." rfl).1⟩

/-- C2, counterexample: a reply naming "Pigeon" — not on the allow-list — with
`in_wesleyan_field_guide: true` is returned with the flag still `true`: the
code never recomputes the flag from the allow-list, it trusts the model's
value. -/
theorem guide_flag_membership_counterexample :
    (identify_bird_parse pigeonReply).getField "in_wesleyan_field_guide" =
      some (Json.bool true) ∧
    (identify_bird_parse pigeonReply).getField "common_name" =
      some (Json.str "Pigeon".toList) ∧
    "Pigeon" ∉ WESLEYAN_FIELD_GUIDE_BIRDS :=
  ⟨rfl, rfl, by decide⟩

/-- C2, amended: `identify_bird` passes `in_wesleyan_field_guide` through from
the parsed model reply unchanged (the biconditional with the 16-name
allow-list is requested of the model in the prompt, not enforced in code);
"Northern Cardinal" is on the allow-list and "Pigeon" is not. -/
theorem guide_flag_passthrough (t : String) (v : Json)
    (hparse : json_loads (strip_code_fences t.toList) = some v) :
    (identify_bird_parse t).getField "in_wesleyan_field_guide" =
      v.getField "in_wesleyan_field_guide" ∧
    "Northern Cardinal" ∈ WESLEYAN_FIELD_GUIDE_BIRDS ∧
    "Pigeon" ∉ WESLEYAN_FIELD_GUIDE_BIRDS := by
  refine ⟨?_, by decide, by decide⟩
  unfold identify_bird_parse
  rw [hparse]

/-- Witness for the amended C2: the pass-through at the Pigeon reply. -/
theorem guide_flag_passthrough_witness :
    (identify_bird_parse pigeonReply).getField "in_wesleyan_field_guide" =
      pigeonValue.getField "in_wesleyan_field_guide" ∧
    "Northern Cardinal" ∈ WESLEYAN_FIELD_GUIDE_BIRDS ∧
    "Pigeon" ∉ WESLEYAN_FIELD_GUIDE_BIRDS :=
  guide_flag_passthrough pigeonReply pigeonValue rfl

/-- C10: the outbound model request declares the hardcoded MIME type
`image/jpeg` for the image bytes — the only byte part of the single request —
for every image, while the `/identify` boundary admits any declared content
type starting with `image/` (and rejects all others with a 400). -/
theorem outbound_mime_type_hardcoded :
    (∀ image : List Nat,
       declared_mime_types (identify_bird_request image) = ["image/jpeg"] ∧
       (identify_bird_request image).parts =
         [RequestPart.from_bytes image "image/jpeg",
          RequestPart.from_text identification_prompt]) ∧
    (∀ (st : AppState) (ct reply : String),
       pyStartsWith "image/".toList ct.toList = true →
       (identify_bird_endpoint st ct reply).1 ≠
         Except.error (400, "Please upload an image file")) ∧
    (∀ (st : AppState) (ct reply : String),
       pyStartsWith "image/".toList ct.toList = false →
       identify_bird_endpoint st ct reply =
         (Except.error (400, "Please upload an image file"), st)) := by
  refine ⟨fun image => ⟨rfl, rfl⟩, ?_, ?_⟩
  · intro st ct reply h
    unfold identify_bird_endpoint
    rw [h, if_neg (by simp)]
    show (if conforms_schema (identify_bird_parse reply) = true
          then (Except.ok (identify_bird_parse reply), st)
          else (Except.error ((500 : Nat), "Internal Server Error"), st)).1 ≠
         Except.error (400, "Please upload an image file")
    split
    · simp
    · simp
  · intro st ct reply h
    unfold identify_bird_endpoint
    rw [h]
    simp

/-- Witness for C10: a PNG upload is admitted and still sent as `image/jpeg`;
a text upload is rejected with the 400. -/
theorem outbound_mime_type_hardcoded_witness :
    declared_mime_types (identify_bird_request [137, 80, 78, 71]) = ["image/jpeg"] ∧
    (identify_bird_endpoint demoState "image/png" cardinalReply).1 ≠
      Except.error (400, "Please upload an image file") ∧
    identify_bird_endpoint demoState "text/plain" cardinalReply =
      (Except.error (400, "Please upload an image file"), demoState) :=
  ⟨(outbound_mime_type_hardcoded.1 [137, 80, 78, 71]).1,
   outbound_mime_type_hardcoded.2.1 demoState "image/png" cardinalReply (by decide),
   outbound_mime_type_hardcoded.2.2 demoState "text/plain" cardinalReply (by decide)⟩

/-- C6: registering a username that matches an existing account (whatever the
email), or an email that matches an existing account (whatever the username),
is rejected with status 400 and the state — in particular the users table —
is unchanged. -/
theorem register_rejects_duplicate (st : AppState) (u : User) (hu : u ∈ st.users)
    (p q : UserCreate) (hp : p.username = u.username) (hq : q.email = u.email) :
    handle st (.auth_register p) =
      (Outcome.failure 400 "Username or email already registered", st) ∧
    handle st (.auth_register q) =
      (Outcome.failure 400 "Username or email already registered", st) := by
  have hpAny : (st.users.any fun w => w.username == p.username || w.email == p.email) = true :=
    List.any_eq_true.mpr ⟨u, hu, by simp [hp]⟩
  have hqAny : (st.users.any fun w => w.username == q.username || w.email == q.email) = true :=
    List.any_eq_true.mpr ⟨u, hu, by simp [hq]⟩
  constructor <;> simp [handle, toOutcome, register, hpAny, hqAny]

/-- Witness for C6: duplicating alice's username with a fresh email, and her
email with a fresh username, are both rejected against the demo state. -/
theorem register_rejects_duplicate_witness :
    handle demoState (.auth_register
        { username := "alice", email := "other@nowhere.org",
          password := "hunter22", orcid_id := none }) =
      (Outcome.failure 400 "Username or email already registered", demoState) ∧
    handle demoState (.auth_register
        { username := "charlie", email := "alice@wesleyan.edu",
          password := "hunter22", orcid_id := none }) =
      (Outcome.failure 400 "Username or email already registered", demoState) :=
  register_rejects_duplicate demoState aliceUser (by decide) _ _ rfl rfl

/-- C7: a sighting whose latitude falls outside `[-90, 90]` or whose longitude
falls outside `[-180, 180]` is rejected by input validation with a 422 (a
400-class status) and the state is unchanged — no record is created; values
inside the ranges, or absent, pass validation. -/
theorem create_sighting_rejects_out_of_range (st : AppState) (uid : Nat)
    (hauth : authed st uid = true) (p : SightingCreate)
    (hbad : (∃ x, p.latitude = some x ∧ (x < -90 ∨ 90 < x)) ∨
            (∃ y, p.longitude = some y ∧ (y < -180 ∨ 180 < y))) :
    handle st (.sightings_post uid p) =
      (Outcome.failure 422 "validation error", st) ∧
    (400 ≤ 422 ∧ 422 < 500) ∧
    (∀ q : SightingCreate,
       (q.latitude = none ∨ ∃ x, q.latitude = some x ∧ -90 ≤ x ∧ x ≤ 90) →
       (q.longitude = none ∨ ∃ y, q.longitude = some y ∧ -180 ≤ y ∧ y ≤ 180) →
       sightingCreate_valid q = true) := by
  have hval : sightingCreate_valid p = false := by
    unfold sightingCreate_valid
    rcases hbad with ⟨x, hx, hxr⟩ | ⟨y, hy, hyr⟩
    · rw [hx]
      rcases hxr with h | h <;> simp [not_le.mpr h]
    · rw [hy]
      rcases hyr with h | h <;> simp [not_le.mpr h]
  refine ⟨?_, ⟨by norm_num, by norm_num⟩, ?_⟩
  · simp [handle, toOutcome, requireAuth, hauth, create_sighting, hval]
  · intro q hq1 hq2
    unfold sightingCreate_valid
    rcases hq1 with h1 | ⟨x, hx, hx1, hx2⟩ <;>
      rcases hq2 with h2 | ⟨y, hy, hy1, hy2⟩ <;>
        simp_all

/-- Witness for C7: a latitude of 100 is rejected for alice against the demo
state, and in-range/absent coordinates pass validation. -/
theorem create_sighting_rejects_out_of_range_witness :
    handle demoState (.sightings_post 1
        { bird_name := "Roc", scientific_name := none,
          latitude := some 100, longitude := none,
          mansion_notes := none, wesleyan_fact := none }) =
      (Outcome.failure 422 "validation error", demoState) ∧
    (400 ≤ 422 ∧ 422 < 500) ∧
    (∀ q : SightingCreate,
       (q.latitude = none ∨ ∃ x, q.latitude = some x ∧ -90 ≤ x ∧ x ≤ 90) →
       (q.longitude = none ∨ ∃ y, q.longitude = some y ∧ -180 ≤ y ∧ y ≤ 180) →
       sightingCreate_valid q = true) :=
  create_sighting_rejects_out_of_range demoState 1 (by decide) _
    (Or.inl ⟨100, rfl, Or.inr (by norm_num)⟩)

/-- The two assignments of `update_user_profile` touch only `email` and
`orcid_id`. -/
theorem apply_user_update_preserves (u : User) (upd : UserUpdate) :
    (apply_user_update u upd).id = u.id ∧
    (apply_user_update u upd).username = u.username ∧
    (apply_user_update u upd).hashed_password = u.hashed_password ∧
    (apply_user_update u upd).created_at = u.created_at := by
  unfold apply_user_update
  rcases upd with ⟨he, ho⟩
  rcases he with _ | e <;> rcases ho with _ | o <;> dsimp only <;>
    first
      | exact ⟨rfl, rfl, rfl, rfl⟩
      | (split <;> exact ⟨rfl, rfl, rfl, rfl⟩)

/-- A profile update never erases a stored ORCID iD. -/
theorem apply_user_update_orcid_mono (u : User) (upd : UserUpdate)
    (h : u.orcid_id ≠ none) : (apply_user_update u upd).orcid_id ≠ none := by
  unfold apply_user_update
  rcases upd with ⟨he, ho⟩
  rcases he with _ | e <;> rcases ho with _ | o <;> dsimp only <;>
    first
      | exact h
      | (split <;> exact h)
      | simp

/-- `toOutcome` only renders; the successor state is the handler's. -/
theorem toOutcome_snd {α : Type} (render : α → Outcome)
    (r : Except (Nat × String) α × AppState) : (toOutcome render r).2 = r.2 := by
  rcases r with ⟨⟨c, d⟩ | a, st⟩ <;> rfl

/-- `requireAuth` either runs its continuation or rejects with the state
untouched. -/
theorem requireAuth_cases (st : AppState) (uid : Nat)
    (k : Unit → Outcome × AppState) :
    requireAuth st uid k = k () ∨
    requireAuth st uid k = (Outcome.failure 401 "Could not validate credentials", st) := by
  unfold requireAuth
  split
  · exact Or.inl rfl
  · exact Or.inr rfl

theorem login_snd (st : AppState) (a b : String) : (login st a b).2 = st := by
  unfold login
  rcases hfind : st.users.find? (fun u => u.username == a) with _ | u <;> rw [hfind]
  all_goals
    first
      | rfl
      | (by_cases hv : verify_password b u.hashed_password = true <;> simp [hv])

theorem update_user_profile_snd (st : AppState) (uid : Nat) (upd : UserUpdate) :
    ((update_user_profile st uid upd).2.users =
       st.users.map (fun u => if u.id = uid then apply_user_update u upd else u) ∧
     (update_user_profile st uid upd).2.nextUserId = st.nextUserId) ∨
    (update_user_profile st uid upd).2 = st := by
  unfold update_user_profile
  rcases hfind : (st.users.map fun u =>
      if u.id = uid then apply_user_update u upd else u).find? (fun u => u.id == uid)
    with _ | u <;> rw [hfind]
  · exact Or.inr rfl
  · exact Or.inl ⟨rfl, rfl⟩

theorem identify_bird_endpoint_snd (st : AppState) (ct reply : String) :
    (identify_bird_endpoint st ct reply).2 = st := by
  unfold identify_bird_endpoint
  split
  · rfl
  · split <;> rfl

theorem create_sighting_snd (st : AppState) (uid : Nat) (p : SightingCreate) :
    (create_sighting st uid p).2.users = st.users ∧
    (create_sighting st uid p).2.nextUserId = st.nextUserId := by
  unfold create_sighting
  split <;> exact ⟨rfl, rfl⟩

theorem get_sighting_snd (st : AppState) (uid sid : Nat) :
    (get_sighting st uid sid).2 = st := by
  unfold get_sighting
  rcases hfind : st.sightings.find? (fun s => s.id == sid && s.user_id == uid)
    with _ | s <;> rw [hfind]

theorem delete_sighting_snd (st : AppState) (uid sid : Nat) :
    (delete_sighting st uid sid).2.users = st.users ∧
    (delete_sighting st uid sid).2.nextUserId = st.nextUserId := by
  unfold delete_sighting
  rcases hfind : st.sightings.find? (fun s => s.id == sid && s.user_id == uid)
    with _ | s <;> rw [hfind] <;> exact ⟨rfl, rfl⟩

/-- How each request shapes the users table: unchanged, one fresh appended
row (registration), or the in-place profile update of one account.  The
`nextUserId` counter moves in step. -/
theorem handle_users_shape (st : AppState) (req : Request) :
    ((handle st req).2.users = st.users ∧
     (handle st req).2.nextUserId = st.nextUserId) ∨
    (∃ nu, (handle st req).2.users = st.users ++ [nu] ∧
       nu.id = st.nextUserId ∧
       (handle st req).2.nextUserId = st.nextUserId + 1) ∨
    (∃ uid upd, (handle st req).2.users =
        st.users.map (fun u => if u.id = uid then apply_user_update u upd else u) ∧
      (handle st req).2.nextUserId = st.nextUserId) := by
  cases req with
  | auth_register p =>
    simp only [handle]
    rw [toOutcome_snd]
    unfold register
    by_cases hdup :
        (st.users.any fun u => u.username == p.username || u.email == p.email) = true
    · rw [if_pos hdup]; left; exact ⟨rfl, rfl⟩
    · rw [if_neg hdup]; right; left; exact ⟨_, rfl, rfl, rfl⟩
  | auth_login a b =>
    left
    simp only [handle]
    rw [toOutcome_snd, login_snd]
    exact ⟨rfl, rfl⟩
  | users_me_get uid =>
    left
    simp only [handle]
    rcases requireAuth_cases st uid
        (fun _ => match st.users.find? (fun u => u.id == uid) with
          | some u => (Outcome.user_body u, st)
          | none => (Outcome.failure 401 "Could not validate credentials", st))
      with h | h <;> rw [h]
    · rcases hfind : st.users.find? (fun u => u.id == uid) with _ | u <;> rw [hfind] <;>
        exact ⟨rfl, rfl⟩
    · exact ⟨rfl, rfl⟩
  | users_me_put uid upd =>
    simp only [handle]
    rcases requireAuth_cases st uid
        (fun _ => toOutcome Outcome.user_body (update_user_profile st uid upd))
      with h | h <;> rw [h]
    · rw [toOutcome_snd]
      rcases update_user_profile_snd st uid upd with ⟨h1, h2⟩ | h1
      · right; right; exact ⟨uid, upd, h1, h2⟩
      · left; rw [h1]; exact ⟨rfl, rfl⟩
    · left; exact ⟨rfl, rfl⟩
  | identify uid ct image reply =>
    left
    simp only [handle]
    rcases requireAuth_cases st uid
        (fun _ => toOutcome Outcome.json_body (identify_bird_endpoint st ct reply))
      with h | h <;> rw [h]
    · rw [toOutcome_snd, identify_bird_endpoint_snd]
      exact ⟨rfl, rfl⟩
    · exact ⟨rfl, rfl⟩
  | sightings_post uid p =>
    left
    simp only [handle]
    rcases requireAuth_cases st uid
        (fun _ => toOutcome Outcome.sighting_body (create_sighting st uid p))
      with h | h <;> rw [h]
    · rw [toOutcome_snd]
      exact create_sighting_snd st uid p
    · exact ⟨rfl, rfl⟩
  | sightings_list uid skip limit =>
    left
    simp only [handle]
    rcases requireAuth_cases st uid
        (fun _ => toOutcome Outcome.sighting_list_body (get_sightings st uid skip limit))
      with h | h <;> rw [h]
    · rw [toOutcome_snd]
      exact ⟨rfl, rfl⟩
    · exact ⟨rfl, rfl⟩
  | sightings_get uid sid =>
    left
    simp only [handle]
    rcases requireAuth_cases st uid
        (fun _ => toOutcome Outcome.sighting_body (get_sighting st uid sid))
      with h | h <;> rw [h]
    · rw [toOutcome_snd, get_sighting_snd]
      exact ⟨rfl, rfl⟩
    · exact ⟨rfl, rfl⟩
  | sightings_delete uid sid =>
    left
    simp only [handle]
    rcases requireAuth_cases st uid
        (fun _ => toOutcome Outcome.message_body (delete_sighting st uid sid))
      with h | h <;> rw [h]
    · rw [toOutcome_snd]
      exact delete_sighting_snd st uid sid
    · exact ⟨rfl, rfl⟩
  | root => left; exact ⟨rfl, rfl⟩

/-- C8: `PUT /users/me` mutates at most `email` and `orcid_id` — the account's
`id`, `username`, `hashed_password` and `created_at` survive every profile
update unchanged — and no exposed operation ever deletes an account: after any
request, every prior account is still present (same id, username, password
hash and creation timestamp). -/
theorem profile_update_frame :
    (∀ (u : User) (upd : UserUpdate),
       (apply_user_update u upd).id = u.id ∧
       (apply_user_update u upd).username = u.username ∧
       (apply_user_update u upd).hashed_password = u.hashed_password ∧
       (apply_user_update u upd).created_at = u.created_at) ∧
    (∀ (st : AppState) (req : Request), ∀ u ∈ st.users,
       ∃ u' ∈ (handle st req).2.users,
         u'.id = u.id ∧ u'.username = u.username ∧
         u'.hashed_password = u.hashed_password ∧ u'.created_at = u.created_at) := by
  refine ⟨apply_user_update_preserves, ?_⟩
  intro st req u hu
  rcases handle_users_shape st req with ⟨hA, _⟩ | ⟨nu, hB, _, _⟩ | ⟨uid, upd, hC, _⟩
  · exact ⟨u, by rw [hA]; exact hu, rfl, rfl, rfl, rfl⟩
  · exact ⟨u, by rw [hB]; exact List.mem_append_left _ hu, rfl, rfl, rfl, rfl⟩
  · refine ⟨if u.id = uid then apply_user_update u upd else u,
      by rw [hC]; exact List.mem_map_of_mem _ hu, ?_⟩
    split
    · exact apply_user_update_preserves u upd
    · exact ⟨rfl, rfl, rfl, rfl⟩

/-- Witness for C8: updating alice's ORCID iD leaves her identity fields in
place, and the update request deletes no account. -/
theorem profile_update_frame_witness :
    ((apply_user_update aliceUser { email := none, orcid_id := some "0000-0003-1613-5981" }).id = aliceUser.id ∧
     (apply_user_update aliceUser { email := none, orcid_id := some "0000-0003-1613-5981" }).username = aliceUser.username ∧
     (apply_user_update aliceUser { email := none, orcid_id := some "0000-0003-1613-5981" }).hashed_password = aliceUser.hashed_password ∧
     (apply_user_update aliceUser { email := none, orcid_id := some "0000-0003-1613-5981" }).created_at = aliceUser.created_at) ∧
    ∃ u' ∈ (handle demoState
        (.users_me_put 1 { email := none, orcid_id := some "0000-0003-1613-5981" })).2.users,
      u'.id = aliceUser.id ∧ u'.username = aliceUser.username ∧
      u'.hashed_password = aliceUser.hashed_password ∧ u'.created_at = aliceUser.created_at :=
  ⟨profile_update_frame.1 aliceUser _,
   profile_update_frame.2 demoState _ aliceUser (by decide)⟩

/-- The per-request preservation of "every user with this id has a non-null
ORCID iD", for ids below the id counter. -/
theorem orcid_inv_step (st : AppState) (req : Request) (i : Nat)
    (hlt : i < st.nextUserId)
    (hinv : ∀ w ∈ st.users, w.id = i → w.orcid_id ≠ none) :
    i < (handle st req).2.nextUserId ∧
    ∀ w ∈ (handle st req).2.users, w.id = i → w.orcid_id ≠ none := by
  rcases handle_users_shape st req with ⟨hA1, hA2⟩ | ⟨nu, hB1, hB2, hB3⟩ |
    ⟨uid, upd, hC1, hC2⟩
  · rw [hA1, hA2]; exact ⟨hlt, hinv⟩
  · refine ⟨by rw [hB3]; omega, ?_⟩
    rw [hB1]
    intro w hw hid
    rcases List.mem_append.mp hw with h | h
    · exact hinv w h hid
    · rw [List.mem_singleton] at h
      subst h
      rw [hB2] at hid
      omega
  · refine ⟨by rw [hC2]; exact hlt, ?_⟩
    rw [hC1]
    intro w hw hid
    rcases List.mem_map.mp hw with ⟨w0, hw0, heq⟩
    subst heq
    by_cases hcase : w0.id = uid
    · rw [if_pos hcase]
      rw [if_pos hcase, (apply_user_update_preserves w0 upd).1] at hid
      exact apply_user_update_orcid_mono w0 upd (hinv w0 hw0 hid)
    · rw [if_neg hcase]
      rw [if_neg hcase] at hid
      exact hinv w0 hw0 hid

/-- The sequence-level closure of `orcid_inv_step`. -/
theorem orcid_inv_seq (reqs : List Request) (st : AppState) (i : Nat)
    (hlt : i < st.nextUserId)
    (hinv : ∀ w ∈ st.users, w.id = i → w.orcid_id ≠ none) :
    ∀ w ∈ (applySeq st reqs).users, w.id = i → w.orcid_id ≠ none := by
  induction reqs generalizing st with
  | nil => exact hinv
  | cons r rest ih =>
    have step := orcid_inv_step st r i hlt hinv
    exact ih (handle st r).2 step.1 step.2

/-- C9: a profile update with a null/absent `orcid_id` leaves the stored
ORCID iD unchanged, one with a null/absent `email` leaves the stored email
unchanged, and no sequence of API requests can take an account's ORCID iD
from a non-null value back to null (ids are unique and below the id
counter in any reachable state). -/
theorem orcid_never_cleared :
    (∀ (u : User) (e : Option String),
       (apply_user_update u { email := e, orcid_id := none }).orcid_id = u.orcid_id) ∧
    (∀ (u : User) (o : Option String),
       (apply_user_update u { email := none, orcid_id := o }).email = u.email) ∧
    (∀ (st : AppState) (reqs : List Request) (u : User) (x : String),
       u ∈ st.users → u.orcid_id = some x →
       (∀ w ∈ st.users, w.id < st.nextUserId) →
       (st.users.map User.id).Nodup →
       ∀ u' ∈ (applySeq st reqs).users, u'.id = u.id → u'.orcid_id ≠ none) := by
  refine ⟨?_, ?_, ?_⟩
  · intro u e
    unfold apply_user_update
    rcases e with _ | e
    · rfl
    · dsimp only; split <;> rfl
  · intro u o
    unfold apply_user_update
    rcases o with _ | o <;> rfl
  · intro st reqs u x hu hx hlt hnd
    refine orcid_inv_seq reqs st u.id (hlt u hu) ?_
    intro w hw hid
    rw [List.inj_on_of_nodup_map hnd hw hu hid, hx]
    simp

/-- Witness for C9: after a no-op profile update against the demo state, the
account that held alice's id still has a non-null ORCID iD. -/
theorem orcid_never_cleared_witness :
    (apply_user_update aliceUser { email := none, orcid_id := none }).orcid_id = aliceUser.orcid_id ∧
    (apply_user_update aliceUser { email := none, orcid_id := some "0000" }).email = aliceUser.email ∧
    (apply_user_update aliceUser { email := none, orcid_id := none }).orcid_id ≠ none :=
  ⟨orcid_never_cleared.1 aliceUser none,
   orcid_never_cleared.2.1 aliceUser (some "0000"),
   orcid_never_cleared.2.2 demoState
     [Request.users_me_put 1 { email := none, orcid_id := none }]
     aliceUser "0000-0002-1825-0097" (by decide) rfl (by decide) (by decide)
     (apply_user_update aliceUser { email := none, orcid_id := none })
     (by decide) (by decide)⟩

/-- C3: a sighting owned by account A is invisible to any other authenticated
account B: both `GET` and `DELETE` on its id return the same 404 response as
for an id that exists nowhere at all, and the failed `DELETE` leaves the
sighting (and the whole state) in place. -/
theorem cross_account_sighting_isolation (st : AppState) (s : Sighting)
    (A B freshId : Nat)
    (hNodup : (st.sightings.map Sighting.id).Nodup)
    (hs : s ∈ st.sightings) (hA : s.user_id = A) (hB : B ≠ A)
    (hBauth : authed st B = true)
    (hfresh : ∀ t ∈ st.sightings, t.id ≠ freshId) :
    handle st (.sightings_get B s.id) =
      (Outcome.failure 404 "Sighting not found in your Life List", st) ∧
    handle st (.sightings_delete B s.id) =
      (Outcome.failure 404 "Sighting not found in your Life List", st) ∧
    handle st (.sightings_get B s.id) = handle st (.sightings_get B freshId) ∧
    handle st (.sightings_delete B s.id) = handle st (.sightings_delete B freshId) ∧
    s ∈ (handle st (.sightings_delete B s.id)).2.sightings := by
  have hfind : st.sightings.find? (fun t => t.id == s.id && t.user_id == B) = none := by
    refine List.find?_eq_none.mpr ?_
    intro t ht hpt
    rw [Bool.and_eq_true, beq_iff_eq, beq_iff_eq] at hpt
    have : t = s := List.inj_on_of_nodup_map hNodup ht hs hpt.1
    exact hB (by rw [← hpt.2, this, hA])
  have hfind2 :
      st.sightings.find? (fun t => t.id == freshId && t.user_id == B) = none := by
    refine List.find?_eq_none.mpr ?_
    intro t ht hpt
    rw [Bool.and_eq_true, beq_iff_eq, beq_iff_eq] at hpt
    exact hfresh t ht hpt.1
  refine ⟨?_, ?_, ?_, ?_, ?_⟩ <;>
    simp [handle, toOutcome, requireAuth, hBauth, get_sighting, delete_sighting, hfind, hfind2]
  exact hs

/-- Witness for C3: bob cannot see or delete alice's sighting; both verbs
answer exactly as for the absent id 99, and the sighting survives. -/
theorem cross_account_sighting_isolation_witness :
    handle demoState (.sightings_get 2 3) =
      (Outcome.failure 404 "Sighting not found in your Life List", demoState) ∧
    handle demoState (.sightings_delete 2 3) =
      (Outcome.failure 404 "Sighting not found in your Life List", demoState) ∧
    handle demoState (.sightings_get 2 3) = handle demoState (.sightings_get 2 99) ∧
    handle demoState (.sightings_delete 2 3) = handle demoState (.sightings_delete 2 99) ∧
    aliceSighting ∈ (handle demoState (.sightings_delete 2 3)).2.sightings := by
  have h := cross_account_sighting_isolation demoState aliceSighting 1 2 99
    (by decide) (by decide) rfl (by decide) (by decide) (by decide)
  exact h

/-! ## List and `strip` algebra for the fence-stripping claim -/

theorem dropWhile_append_all {p : Char → Bool} (w s : List Char)
    (hw : ∀ c ∈ w, p c = true) : (w ++ s).dropWhile p = s.dropWhile p := by
  induction w with
  | nil => rfl
  | cons a w ih =>
    have ha : p a = true := hw a (List.mem_cons_self a w)
    simp only [List.cons_append, List.dropWhile_cons, ha, if_true]
    exact ih fun c hc => hw c (List.mem_cons_of_mem a hc)

theorem dropWhile_nil_of_all {p : Char → Bool} (l : List Char)
    (h : ∀ c ∈ l, p c = true) : l.dropWhile p = [] := by
  induction l with
  | nil => rfl
  | cons a l ih =>
    simp only [List.dropWhile_cons, h a (List.mem_cons_self a l), if_true]
    exact ih fun c hc => h c (List.mem_cons_of_mem a hc)

theorem dropWhile_append_of_ne {p : Char → Bool} (xs ys : List Char)
    (hx : xs.dropWhile p = xs) (hne : xs ≠ []) :
    (xs ++ ys).dropWhile p = xs ++ ys := by
  rw [List.dropWhile_append, hx]
  simp [hne]

theorem dropWhile_head_false {p : Char → Bool} (l : List Char) :
    ∀ c, (l.dropWhile p).head? = some c → p c = false := by
  induction l with
  | nil => intro c h; simp at h
  | cons a l ih =>
    intro c h
    rw [List.dropWhile_cons] at h
    cases hpa : p a
    · rw [hpa] at h
      simp only [Bool.false_eq_true, if_false, List.head?_cons, Option.some.injEq] at h
      rw [← h]
      exact hpa
    · rw [hpa] at h
      simp only [if_true] at h
      exact ih c h

theorem dropWhile_eq_self_of_head {q : Char → Bool} (l : List Char)
    (h : ∀ c, l.head? = some c → q c = false) : l.dropWhile q = l := by
  cases l with
  | nil => rfl
  | cons a l => simp [List.dropWhile_cons, h a rfl]

theorem pyStrip_append_ws (w1 w2 mid : List Char)
    (hw1 : ∀ c ∈ w1, isPySpace c = true) (hw2 : ∀ c ∈ w2, isPySpace c = true) :
    pyStrip (w1 ++ mid ++ w2) = pyStrip mid := by
  unfold pyStrip
  rw [List.append_assoc, dropWhile_append_all w1 _ hw1, List.dropWhile_append]
  by_cases hmid : (mid.dropWhile isPySpace).isEmpty = true
  · rw [if_pos hmid, dropWhile_nil_of_all w2 hw2]
    have hnil : mid.dropWhile isPySpace = [] := by simpa using hmid
    rw [hnil]
  · rw [if_neg hmid, List.reverse_append,
      dropWhile_append_all w2.reverse _ (fun c hc => hw2 c (List.mem_reverse.mp hc))]

theorem pyStrip_eq_self (s : List Char) (h1 : s.dropWhile isPySpace = s)
    (h2 : s.reverse.dropWhile isPySpace = s.reverse) : pyStrip s = s := by
  unfold pyStrip
  rw [h1, h2, List.reverse_reverse]

theorem isPrefixOf_append_self (a x : List Char) :
    List.isPrefixOf a (a ++ x) = true := by
  induction a with
  | nil => simp [List.isPrefixOf]
  | cons c a ih => simp [List.isPrefixOf, ih]

theorem isPrefixOf_eq_false_of_head_ne (p s : List Char) (hp : p ≠ [])
    (h : p.head? ≠ s.head?) : List.isPrefixOf p s = false := by
  cases p with
  | nil => exact absurd rfl hp
  | cons a as =>
    cases s with
    | nil => rfl
    | cons b bs =>
      have hne : (a == b) = false := by
        cases hab : a == b
        · rfl
        · exact absurd (congrArg some (by simpa using hab)) h
      simp [List.isPrefixOf, hne]

theorem isPrefixOf_append_split (a b s : List Char)
    (h : List.isPrefixOf (a ++ b) s = true) : List.isPrefixOf a s = true := by
  induction a generalizing s with
  | nil => simp [List.isPrefixOf]
  | cons c a ih =>
    cases s with
    | nil => simp [List.isPrefixOf] at h
    | cons d ds =>
      simp only [List.cons_append, List.isPrefixOf, Bool.and_eq_true] at h ⊢
      exact ⟨h.1, ih ds h.2⟩

theorem eq_of_isPrefixOf_append (a b x : List Char) (hlen : a.length = b.length)
    (h : List.isPrefixOf a (b ++ x) = true) : a = b := by
  induction a generalizing b with
  | nil =>
    cases b with
    | nil => rfl
    | cons d ds => simp at hlen
  | cons c a ih =>
    cases b with
    | nil => simp at hlen
    | cons d ds =>
      simp only [List.cons_append, List.isPrefixOf, Bool.and_eq_true, beq_iff_eq] at h
      rw [h.1, ih ds (by simpa using hlen) h.2]

theorem head_eq_of_isPrefixOf (p q : List Char) (hp : p ≠ [])
    (h : List.isPrefixOf p q = true) : q.head? = p.head? := by
  cases p with
  | nil => exact absurd rfl hp
  | cons a as =>
    cases q with
    | nil => simp [List.isPrefixOf] at h
    | cons b bs =>
      simp only [List.isPrefixOf, Bool.and_eq_true, beq_iff_eq] at h
      rw [h.1]
      rfl

theorem isSuffixOf_getLast (a s : List Char) (ha : a ≠ [])
    (h : List.isSuffixOf a s = true) : s.getLast? = a.getLast? := by
  have h' : s.reverse.head? = a.reverse.head? :=
    head_eq_of_isPrefixOf a.reverse s.reverse (by simpa using ha) h
  rw [← List.head?_reverse, ← List.head?_reverse]
  exact h'

/-- Head of a stripped string is never whitespace. -/
theorem pyStrip_head_not_space (x : List Char) (c : Char)
    (h : (pyStrip x).head? = some c) : isPySpace c = false := by
  obtain ⟨pre, hpre⟩ :=
    List.dropWhile_suffix (l := (x.dropWhile isPySpace).reverse) (p := isPySpace)
  have hps : pyStrip x =
      ((x.dropWhile isPySpace).reverse.dropWhile isPySpace).reverse := rfl
  have hy : x.dropWhile isPySpace =
      ((x.dropWhile isPySpace).reverse.dropWhile isPySpace).reverse ++ pre.reverse := by
    rw [← List.reverse_append, hpre, List.reverse_reverse]
  have hhead : (x.dropWhile isPySpace).head? = some c := by
    rw [hy]
    rcases hne : ((x.dropWhile isPySpace).reverse.dropWhile isPySpace).reverse
      with _ | ⟨a, as⟩
    · rw [hps, hne] at h
      simp at h
    · rw [hps, hne] at h
      rw [List.cons_append, List.head?_cons]
      rw [List.head?_cons] at h
      exact h
  exact dropWhile_head_false x c hhead

/-- Last of a stripped string is never whitespace. -/
theorem pyStrip_last_not_space (x : List Char) (c : Char)
    (h : (pyStrip x).getLast? = some c) : isPySpace c = false := by
  have : ((x.dropWhile isPySpace).reverse.dropWhile isPySpace).head? = some c := by
    rw [← List.head?_reverse] at h
    rw [← List.reverse_reverse ((x.dropWhile isPySpace).reverse.dropWhile isPySpace)]
    rw [List.head?_reverse]
    rw [show (pyStrip x).reverse =
        ((x.dropWhile isPySpace).reverse.dropWhile isPySpace).reverse.reverse from rfl] at h
    rw [← List.head?_reverse]
    rw [List.reverse_reverse] at h ⊢
    exact h
  exact dropWhile_head_false (x.dropWhile isPySpace).reverse c this

/-- Stripping a whitespace-padded, `json`-tagged fenced block recovers the
stripped body: the pipeline removes exactly the one leading fence and the one
trailing fence. -/
theorem strip_code_fences_json_wrapped (t w1 w2 : List Char)
    (hw1 : ∀ c ∈ w1, isPySpace c = true) (hw2 : ∀ c ∈ w2, isPySpace c = true) :
    strip_code_fences (w1 ++ ("```json\n".toList ++ t ++ "\n```".toList) ++ w2) =
      pyStrip t := by
  have hmid1 : ("```json\n".toList ++ t ++ "\n```".toList).dropWhile isPySpace =
      "```json\n".toList ++ t ++ "\n```".toList := by
    rw [List.append_assoc]
    exact dropWhile_append_of_ne _ _ (by decide) (by decide)
  have hmid2 : ("```json\n".toList ++ t ++ "\n```".toList).reverse.dropWhile isPySpace =
      ("```json\n".toList ++ t ++ "\n```".toList).reverse := by
    rw [List.reverse_append, List.reverse_append]
    exact dropWhile_append_of_ne _ _ (by decide) (by decide)
  have hs1 : pyStrip (w1 ++ ("```json\n".toList ++ t ++ "\n```".toList) ++ w2) =
      "```json\n".toList ++ t ++ "\n```".toList := by
    rw [pyStrip_append_ws _ _ _ hw1 hw2]
    exact pyStrip_eq_self _ hmid1 hmid2
  have hassoc : "```json\n".toList ++ t ++ "\n```".toList =
      "```json".toList ++ ("\n".toList ++ t ++ ("\n".toList ++ "```".toList)) := by
    rw [show "```json\n".toList = "```json".toList ++ "\n".toList from by decide,
        show "\n```".toList = "\n".toList ++ "```".toList from by decide]
    simp only [List.append_assoc]
  have hjson : fence_step_json ("```json\n".toList ++ t ++ "\n```".toList) =
      "\n".toList ++ t ++ ("\n".toList ++ "```".toList) := by
    unfold fence_step_json pyStartsWith
    rw [hassoc, if_pos (isPrefixOf_append_self "```json".toList _)]
    have h7 : ("```json".toList).length = 7 := by decide
    rw [← h7, List.drop_left]
  have hplain : fence_step_plain ("\n".toList ++ t ++ ("\n".toList ++ "```".toList)) =
      "\n".toList ++ t ++ ("\n".toList ++ "```".toList) := by
    have hne : ("```".toList).head? ≠
        ("\n".toList ++ t ++ ("\n".toList ++ "```".toList)).head? := by
      rw [show ("\n".toList ++ t ++ ("\n".toList ++ "```".toList)).head? =
          some '\n' from rfl]
      decide
    have hfalse :=
      isPrefixOf_eq_false_of_head_ne _ _ (show "```".toList ≠ [] by decide) hne
    unfold fence_step_plain pyStartsWith
    rw [if_neg (by simp [hfalse])]
  have hrev3 : ("\n".toList ++ t ++ ("\n".toList ++ "```".toList)) =
      ("\n".toList ++ t ++ "\n".toList) ++ "```".toList := by
    simp only [List.append_assoc]
  have hclose : fence_step_close ("\n".toList ++ t ++ ("\n".toList ++ "```".toList)) =
      "\n".toList ++ t ++ "\n".toList := by
    unfold fence_step_close pyEndsWith
    rw [hrev3]
    rw [if_pos ?hsuf]
    case hsuf =>
      unfold List.isSuffixOf
      rw [List.reverse_append]
      exact isPrefixOf_append_self _ _
    have hlen : (("\n".toList ++ t ++ "\n".toList) ++ "```".toList).length - 3 =
        ("\n".toList ++ t ++ "\n".toList).length := by
      rw [List.length_append]
      simp
    rw [hlen, List.take_left]
  have hfinal : pyStrip ("\n".toList ++ t ++ "\n".toList) = pyStrip t :=
    pyStrip_append_ws _ _ _ (by decide) (by decide)
  unfold strip_code_fences
  rw [hs1, hjson, hplain, hclose, hfinal]

/-- The plain-fence counterpart of `strip_code_fences_json_wrapped`. -/
theorem strip_code_fences_plain_wrapped (t w1 w2 : List Char)
    (hw1 : ∀ c ∈ w1, isPySpace c = true) (hw2 : ∀ c ∈ w2, isPySpace c = true) :
    strip_code_fences (w1 ++ ("```\n".toList ++ t ++ "\n```".toList) ++ w2) =
      pyStrip t := by
  have hmid1 : ("```\n".toList ++ t ++ "\n```".toList).dropWhile isPySpace =
      "```\n".toList ++ t ++ "\n```".toList := by
    rw [List.append_assoc]
    exact dropWhile_append_of_ne _ _ (by decide) (by decide)
  have hmid2 : ("```\n".toList ++ t ++ "\n```".toList).reverse.dropWhile isPySpace =
      ("```\n".toList ++ t ++ "\n```".toList).reverse := by
    rw [List.reverse_append, List.reverse_append]
    exact dropWhile_append_of_ne _ _ (by decide) (by decide)
  have hs1 : pyStrip (w1 ++ ("```\n".toList ++ t ++ "\n```".toList) ++ w2) =
      "```\n".toList ++ t ++ "\n```".toList := by
    rw [pyStrip_append_ws _ _ _ hw1 hw2]
    exact pyStrip_eq_self _ hmid1 hmid2
  have hjson : fence_step_json ("```\n".toList ++ t ++ "\n```".toList) =
      "```\n".toList ++ t ++ "\n```".toList := by
    have hfalse : List.isPrefixOf "```json".toList
        ("```\n".toList ++ t ++ "\n```".toList) = false := by
      cases hcontra : List.isPrefixOf "```json".toList
          ("```\n".toList ++ t ++ "\n```".toList)
      · rfl
      · exfalso
        rw [List.append_assoc] at hcontra
        rw [show "```json".toList = "```j".toList ++ "son".toList from by decide]
          at hcontra
        have h1 := isPrefixOf_append_split _ _ _ hcontra
        have h2 := eq_of_isPrefixOf_append "```j".toList "```\n".toList _
          (by decide) h1
        exact absurd h2 (by decide)
    unfold fence_step_json pyStartsWith
    rw [if_neg (by simp [hfalse])]
  have hassoc : "```\n".toList ++ t ++ "\n```".toList =
      "```".toList ++ ("\n".toList ++ t ++ ("\n".toList ++ "```".toList)) := by
    rw [show "```\n".toList = "```".toList ++ "\n".toList from by decide,
        show "\n```".toList = "\n".toList ++ "```".toList from by decide]
    simp only [List.append_assoc]
  have hplain : fence_step_plain ("```\n".toList ++ t ++ "\n```".toList) =
      "\n".toList ++ t ++ ("\n".toList ++ "```".toList) := by
    unfold fence_step_plain pyStartsWith
    rw [hassoc, if_pos (isPrefixOf_append_self "```".toList _)]
    have h3 : ("```".toList).length = 3 := by decide
    rw [← h3, List.drop_left]
  have hrev3 : ("\n".toList ++ t ++ ("\n".toList ++ "```".toList)) =
      ("\n".toList ++ t ++ "\n".toList) ++ "```".toList := by
    simp only [List.append_assoc]
  have hclose : fence_step_close ("\n".toList ++ t ++ ("\n".toList ++ "```".toList)) =
      "\n".toList ++ t ++ "\n".toList := by
    unfold fence_step_close pyEndsWith
    rw [hrev3]
    rw [if_pos ?hsuf]
    case hsuf =>
      unfold List.isSuffixOf
      rw [List.reverse_append]
      exact isPrefixOf_append_self _ _
    have hlen : (("\n".toList ++ t ++ "\n".toList) ++ "```".toList).length - 3 =
        ("\n".toList ++ t ++ "\n".toList).length := by
      rw [List.length_append]
      simp
    rw [hlen, List.take_left]
  have hfinal : pyStrip ("\n".toList ++ t ++ "\n".toList) = pyStrip t :=
    pyStrip_append_ws _ _ _ (by decide) (by decide)
  unfold strip_code_fences
  rw [hs1, hjson, hplain, hclose, hfinal]

/-! ## Consumption shape of the `json.loads` model

These lemmas say that every successful parse step consumes a nonempty prefix
of its input ending in a character a JSON value can end with — which is what
rules out a stripped backtick fence at either end of a parseable reply. -/

theorem getLast?_mem_of_eq (l : List Char) (a : Char) (h : l.getLast? = some a) :
    a ∈ l := by
  obtain ⟨hne, rfl⟩ := List.mem_getLast?_eq_getLast h
  exact List.getLast_mem hne

theorem jsonEndCharLast_append (a b : List Char) (hb : b ≠ []) :
    jsonEndCharLast (a ++ b) = jsonEndCharLast b := by
  unfold jsonEndCharLast
  rw [List.getLast?_append_of_ne_nil a hb]

theorem jsonEndCharLast_cons (c : Char) (l : List Char) (hl : l ≠ []) :
    jsonEndCharLast (c :: l) = jsonEndCharLast l := by
  rw [show c :: l = [c] ++ l from rfl]
  exact jsonEndCharLast_append [c] l hl

theorem jsonEndCharLast_of_all_digits (l : List Char) (hne : l ≠ [])
    (h : ∀ c ∈ l, isDigitChar c = true) : jsonEndCharLast l = true := by
  induction l with
  | nil => exact absurd rfl hne
  | cons a l ih =>
    cases l with
    | nil =>
      have ha := h a (List.mem_cons_self a [])
      unfold jsonEndCharLast
      simp only [List.getLast?_singleton]
      unfold isJsonEndChar
      rw [ha]
      simp
    | cons b l =>
      rw [jsonEndCharLast_cons a (b :: l) (by simp)]
      exact ih (by simp) fun c hc => h c (List.mem_cons_of_mem a hc)

theorem endsWellFrom_suffix {A mid rest : List Char} (hs : mid <:+ A)
    (h : endsWellFrom mid rest) : endsWellFrom A rest := by
  obtain ⟨p, hp⟩ := hs
  obtain ⟨pre, hpre, hne, hlast⟩ := h
  refine ⟨p ++ pre, ?_, by simp [hne], ?_⟩
  · rw [← hp, hpre, List.append_assoc]
  · rw [jsonEndCharLast_append p pre hne]
    exact hlast

theorem suffix_of_endsWellFrom {s rest : List Char} (h : endsWellFrom s rest) :
    rest <:+ s := by
  obtain ⟨pre, hpre, -, -⟩ := h
  exact ⟨pre, hpre.symm⟩

theorem endsWellFrom_cons_of (c : Char) {s rest : List Char}
    (h : endsWellFrom s rest) : endsWellFrom (c :: s) rest :=
  endsWellFrom_suffix (List.suffix_cons c s) h

theorem endsWellFrom_skipWs {s rest : List Char}
    (h : endsWellFrom (skipWs s) rest) : endsWellFrom s rest :=
  endsWellFrom_suffix (List.dropWhile_suffix isJsonWs) h

theorem parseIntPart_consumes (s ip r : List Char)
    (h : parseIntPart s = some (ip, r)) :
    s = ip ++ r ∧ ip ≠ [] ∧ jsonEndCharLast ip = true := by
  match s with
  | [] => simp [parseIntPart] at h
  | c :: rest =>
    rw [parseIntPart] at h
    by_cases h0 : c = '0'
    · rw [if_pos h0] at h
      obtain ⟨h1, h2⟩ : ['0'] = ip ∧ rest = r := by simpa using h
      subst h1
      subst h2
      rw [h0]
      exact ⟨rfl, by simp, by decide⟩
    · rw [if_neg h0] at h
      by_cases hd : isDigitChar c = true
      · rw [if_pos hd] at h
        obtain ⟨h1, h2⟩ : c :: rest.takeWhile isDigitChar = ip ∧
            rest.dropWhile isDigitChar = r := by simpa using h
        subst h1
        subst h2
        refine ⟨by rw [List.cons_append, List.takeWhile_append_dropWhile], by simp, ?_⟩
        exact jsonEndCharLast_of_all_digits _ (by simp) (by
          intro x hx
          rcases List.mem_cons.mp hx with hx | hx
          · rw [hx]; exact hd
          · exact List.mem_takeWhile_imp hx)
      · rw [if_neg hd] at h
        simp at h

theorem parseFracPart_consumes (s fp r : List Char)
    (h : parseFracPart s = some (fp, r)) :
    s = fp ++ r ∧ (fp = [] ∨ (fp ≠ [] ∧ jsonEndCharLast fp = true)) := by
  match s with
  | [] =>
    obtain ⟨h1, h2⟩ : [] = fp ∧ [] = r := by simpa [parseFracPart] using h
    subst h1; subst h2
    exact ⟨rfl, Or.inl rfl⟩
  | c :: rest =>
    rw [parseFracPart] at h
    by_cases hdot : c = '.'
    · rw [if_pos hdot] at h
      by_cases hnil : rest.takeWhile isDigitChar = []
      · rw [if_pos hnil] at h; simp at h
      · rw [if_neg hnil] at h
        obtain ⟨h1, h2⟩ : '.' :: rest.takeWhile isDigitChar = fp ∧
            rest.dropWhile isDigitChar = r := by simpa using h
        subst h1
        subst h2
        refine ⟨by rw [hdot, List.cons_append, List.takeWhile_append_dropWhile], Or.inr ⟨by simp, ?_⟩⟩
        rw [jsonEndCharLast_cons _ _ hnil]
        exact jsonEndCharLast_of_all_digits _ hnil
          (fun x hx => List.mem_takeWhile_imp hx)
    · rw [if_neg hdot] at h
      obtain ⟨h1, h2⟩ : [] = fp ∧ c :: rest = r := by simpa using h
      subst h1; subst h2
      exact ⟨rfl, Or.inl rfl⟩

theorem parseExpPart_consumes (s ep r : List Char)
    (h : parseExpPart s = some (ep, r)) :
    s = ep ++ r ∧ (ep = [] ∨ (ep ≠ [] ∧ jsonEndCharLast ep = true)) := by
  match s with
  | [] =>
    obtain ⟨h1, h2⟩ : [] = ep ∧ [] = r := by simpa [parseExpPart] using h
    subst h1; subst h2
    exact ⟨rfl, Or.inl rfl⟩
  | [c] =>
    rw [parseExpPart] at h
    by_cases he : c = 'e' ∨ c = 'E'
    · rw [if_pos he] at h
      simp at h
    · rw [if_neg he] at h
      obtain ⟨h1, h2⟩ : [] = ep ∧ [c] = r := by simpa using h
      subst h1; subst h2
      exact ⟨rfl, Or.inl rfl⟩
  | c :: d :: rest2 =>
    rw [parseExpPart] at h
    by_cases he : c = 'e' ∨ c = 'E'
    · rw [if_pos he] at h
      by_cases hsgn : d = '+' ∨ d = '-'
      · rw [if_pos hsgn] at h
        by_cases hnil : rest2.takeWhile isDigitChar = []
        · rw [if_pos hnil] at h
          simp at h
        · rw [if_neg hnil] at h
          obtain ⟨h1, h2⟩ : c :: d :: rest2.takeWhile isDigitChar = ep ∧
              rest2.dropWhile isDigitChar = r := by simpa using h
          subst h1; subst h2
          refine ⟨by rw [List.cons_append, List.cons_append,
            List.takeWhile_append_dropWhile], Or.inr ⟨by simp, ?_⟩⟩
          rw [jsonEndCharLast_cons _ _ (by simp), jsonEndCharLast_cons _ _ hnil]
          exact jsonEndCharLast_of_all_digits _ hnil
            (fun x hx => List.mem_takeWhile_imp hx)
      · rw [if_neg hsgn] at h
        by_cases hnil : ((d :: rest2).takeWhile isDigitChar : List Char) = []
        · rw [if_pos hnil] at h
          simp at h
        · rw [if_neg hnil] at h
          obtain ⟨h1, h2⟩ : c :: (d :: rest2).takeWhile isDigitChar = ep ∧
              (d :: rest2).dropWhile isDigitChar = r := by simpa using h
          subst h1; subst h2
          refine ⟨by rw [List.cons_append, List.takeWhile_append_dropWhile],
            Or.inr ⟨by simp, ?_⟩⟩
          rw [jsonEndCharLast_cons _ _ hnil]
          exact jsonEndCharLast_of_all_digits _ hnil
            (fun x hx => List.mem_takeWhile_imp hx)
    · rw [if_neg he] at h
      obtain ⟨h1, h2⟩ : [] = ep ∧ c :: d :: rest2 = r := by simpa using h
      subst h1; subst h2
      exact ⟨rfl, Or.inl rfl⟩

theorem parseNumBody_consumes (s lex r : List Char)
    (h : parseNumBody s = some (lex, r)) :
    s = lex ++ r ∧ lex ≠ [] ∧ jsonEndCharLast lex = true := by
  rw [parseNumBody] at h
  split at h
  · simp at h
  rename_i ip s1 hip
  split at h
  · simp at h
  rename_i fp s2 hfp
  split at h
  · simp at h
  rename_i ep s3 hep
  obtain ⟨h1, h2⟩ : ip ++ fp ++ ep = lex ∧ s3 = r := by simpa using h
  subst h1
  subst h2
  obtain ⟨hieq, hine, hilast⟩ := parseIntPart_consumes s ip s1 hip
  obtain ⟨hfeq, hff⟩ := parseFracPart_consumes s1 fp s2 hfp
  obtain ⟨heeq, hee⟩ := parseExpPart_consumes s2 ep s3 hep
  refine ⟨by rw [hieq, hfeq, heeq]; simp [List.append_assoc], by simp [hine], ?_⟩
  rcases hee with rfl | ⟨hene, helast⟩
  · rw [List.append_nil]
    rcases hff with rfl | ⟨hfne, hflast⟩
    · rw [List.append_nil]
      exact hilast
    · rw [jsonEndCharLast_append ip fp hfne]
      exact hflast
  · rw [jsonEndCharLast_append (ip ++ fp) ep hene]
    exact helast

theorem parse4Hex_consumes (l : List Char) (n : Nat) (rest : List Char)
    (h : parse4Hex l = some (n, rest)) :
    ∃ a b c d, l = a :: b :: c :: d :: rest := by
  match l with
  | [] => simp [parse4Hex] at h
  | [a] => simp [parse4Hex] at h
  | [a, b] => simp [parse4Hex] at h
  | [a, b, c] => simp [parse4Hex] at h
  | a :: b :: c :: d :: r =>
    refine ⟨a, b, c, d, ?_⟩
    rw [parse4Hex] at h
    split at h
    · obtain ⟨-, h2⟩ : _ ∧ r = rest := by simpa using h
      rw [h2]
    · simp at h

/-- The common continuation shape of `parseStringBody`: a recursive call on a
suffix, prepending one decoded character. -/
theorem stringCont_case (fuel : Nat)
    (ih : ∀ s content rem, parseStringBody fuel s = some (content, rem) →
      ∃ pre, s = pre ++ rem ∧ pre ≠ [] ∧ pre.getLast? = some '"')
    (X s : List Char) (ch : Char) (content rem : List Char)
    (hsuf : X <:+ s)
    (h : (match parseStringBody fuel X with
          | none => none
          | some (tl, rem') => some (ch :: tl, rem')) = some (content, rem)) :
    ∃ pre, s = pre ++ rem ∧ pre ≠ [] ∧ pre.getLast? = some '"' := by
  rcases hX : parseStringBody fuel X with _ | ⟨tl, rem'⟩ <;> rw [hX] at h
  · simp at h
  · obtain ⟨-, h2⟩ : ch :: tl = content ∧ rem' = rem := by simpa using h
    obtain ⟨pre, hdec, hne, hlast⟩ := ih X tl rem' hX
    obtain ⟨p, hp⟩ := hsuf
    rw [← h2]
    refine ⟨p ++ pre, by rw [← hp, hdec, List.append_assoc], by simp [hne], ?_⟩
    rw [List.getLast?_append_of_ne_nil p hne]
    exact hlast

theorem parseStringBody_consumes (fuel : Nat) :
    ∀ s content rem, parseStringBody fuel s = some (content, rem) →
      ∃ pre, s = pre ++ rem ∧ pre ≠ [] ∧ pre.getLast? = some '"' := by
  induction fuel with
  | zero => intro s content rem h; simp [parseStringBody] at h
  | succ fuel ih =>
    intro s content rem h
    match s with
    | [] => simp [parseStringBody] at h
    | [c] =>
      rw [parseStringBody] at h
      by_cases hq : c = '"'
      · rw [if_pos hq] at h
        obtain ⟨-, h2⟩ : ([] : List Char) = content ∧ ([] : List Char) = rem := by
          simpa using h
        subst hq
        rw [← h2]
        exact ⟨['"'], rfl, by simp, rfl⟩
      rw [if_neg hq] at h
      by_cases hbs : c = '\\'
      · rw [if_pos hbs] at h
        simp at h
      rw [if_neg hbs] at h
      by_cases hctl : c.toNat < 0x20
      · rw [if_pos hctl] at h
        simp at h
      · rw [if_neg hctl] at h
        have hnil : parseStringBody fuel [] = none := by cases fuel <;> rfl
        rw [hnil] at h
        simp at h
    | c :: e :: rest2 =>
      rw [parseStringBody] at h
      by_cases hq : c = '"'
      · rw [if_pos hq] at h
        obtain ⟨-, h2⟩ : ([] : List Char) = content ∧ e :: rest2 = rem := by
          simpa using h
        subst hq
        rw [← h2]
        exact ⟨['"'], rfl, by simp, rfl⟩
      rw [if_neg hq] at h
      by_cases hbs : c = '\\'
      · rw [if_pos hbs] at h
        split at h
        · -- a single-character escape
          exact stringCont_case fuel ih rest2 _ _ _ _ ⟨[c, e], rfl⟩ h
        · -- escChar e = none: the \u escape or failure
          by_cases hu : e = 'u'
          · rw [if_pos hu] at h
            split at h
            · simp at h
            · rename_i n rest3 h4
              obtain ⟨a, b, c3, d3, hshape⟩ := parse4Hex_consumes rest2 n rest3 h4
              by_cases hhi : 0xD800 ≤ n ∧ n < 0xDC00
              · rw [if_pos hhi] at h
                split at h
                · -- a second \u escape follows
                  rename_i rest4
                  split at h
                  · simp at h
                  · rename_i m rest5 h4b
                    obtain ⟨e1, e2, e3, e4, hshape4⟩ :=
                      parse4Hex_consumes rest4 m rest5 h4b
                    by_cases hlo : 0xDC00 ≤ m ∧ m < 0xE000
                    · rw [if_pos hlo] at h
                      refine stringCont_case fuel ih rest5 _ _ _ _ ?_ h
                      refine List.IsSuffix.trans ⟨[e1, e2, e3, e4], hshape4.symm⟩ ?_
                      refine List.IsSuffix.trans ⟨['\\', 'u'], rfl⟩ ?_
                      exact List.IsSuffix.trans ⟨[a, b, c3, d3], hshape.symm⟩
                        ⟨[c, e], rfl⟩
                    · rw [if_neg hlo] at h
                      refine stringCont_case fuel ih _ _ _ _ _ ?_ h
                      exact List.IsSuffix.trans ⟨[a, b, c3, d3], hshape.symm⟩
                        ⟨[c, e], rfl⟩
                all_goals
                  refine stringCont_case fuel ih _ _ _ _ _ ?_ h
                all_goals
                  exact List.IsSuffix.trans ⟨[a, b, c3, d3], hshape.symm⟩ ⟨[c, e], rfl⟩
              · rw [if_neg hhi] at h
                refine stringCont_case fuel ih _ _ _ _ _ ?_ h
                exact List.IsSuffix.trans ⟨[a, b, c3, d3], hshape.symm⟩ ⟨[c, e], rfl⟩
          · rw [if_neg hu] at h
            simp at h
      rw [if_neg hbs] at h
      by_cases hctl : c.toNat < 0x20
      · rw [if_pos hctl] at h
        simp at h
      · rw [if_neg hctl] at h
        exact stringCont_case fuel ih (e :: rest2) _ _ _ _ ⟨[c], rfl⟩ h

theorem parseValue_nil (fuel : Nat) : parseValue fuel [] = none := by
  cases fuel <;> rfl

theorem parseValue_not_starter (fuel : Nat) (c : Char) (cs : List Char)
    (h : jsonStarter c = false) : parseValue fuel (c :: cs) = none := by
  obtain ⟨⟨⟨⟨⟨⟨⟨⟨⟨h1, h2⟩, h3⟩, h4⟩, h5⟩, h6⟩, h7⟩, h8⟩, h9⟩, h10⟩ :
      ((((((((¬ c = '"' ∧ ¬ c = '\x7b') ∧ ¬ c = '[') ∧ ¬ c = 't') ∧ ¬ c = 'f') ∧
        ¬ c = 'n') ∧ ¬ c = 'N') ∧ ¬ c = 'I') ∧ ¬ c = '-') ∧
        isDigitChar c = false := by
    simpa [jsonStarter] using h
  cases fuel with
  | zero => rfl
  | succ fuel =>
    rw [parseValue, if_neg h1, if_neg h2, if_neg h3, if_neg h4, if_neg h5,
      if_neg h6, if_neg h7, if_neg h8, if_neg h9, if_neg (by simp [h10])]

theorem jsonEndCharLast_of_getLast (pre : List Char) (c : Char)
    (h : pre.getLast? = some c) (hc : isJsonEndChar c = true) :
    jsonEndCharLast pre = true := by
  unfold jsonEndCharLast
  rw [h]
  exact hc

theorem take_drop_decomp (n : Nat) (l p : List Char) (h : l.take n = p) :
    l = p ++ l.drop n := by
  rw [← h, List.take_append_drop]

theorem parse_consumes (fuel : Nat) :
    (∀ s v rest, parseValue fuel s = some (v, rest) → endsWellFrom s rest) ∧
    (∀ s acc v rest, parseMembers fuel s acc = some (v, rest) →
      endsWellFrom s rest) ∧
    (∀ s acc v rest, parseElements fuel s acc = some (v, rest) →
      endsWellFrom s rest) := by
  induction fuel with
  | zero =>
    refine ⟨?_, ?_, ?_⟩
    · intro s v rest h; simp [parseValue] at h
    · intro s acc v rest h; simp [parseMembers] at h
    · intro s acc v rest h; simp [parseElements] at h
  | succ fuel ih =>
    obtain ⟨ihV, ihM, ihE⟩ := ih
    refine ⟨?_, ?_, ?_⟩
    · intro s v rest h
      match s with
      | [] => simp [parseValue] at h
      | c :: cs =>
        rw [parseValue] at h
        by_cases h1 : c = '"'
        · rw [if_pos h1] at h
          split at h
          · simp at h
          · rename_i content rem hsb
            obtain ⟨-, h2⟩ : Json.str content = v ∧ rem = rest := by simpa using h
            obtain ⟨pre, hdec, hne, hlast⟩ :=
              parseStringBody_consumes (cs.length + 1) cs content rem hsb
            rw [← h2]
            exact endsWellFrom_cons_of c
              ⟨pre, hdec, hne, jsonEndCharLast_of_getLast pre '"' hlast (by decide)⟩
        rw [if_neg h1] at h
        by_cases h2 : c = '\x7b'
        · rw [if_pos h2] at h
          by_cases hb : (skipWs cs).take 1 = "\x7d".toList
          · rw [if_pos hb] at h
            obtain ⟨-, hr⟩ : Json.obj [] = v ∧ (skipWs cs).drop 1 = rest := by
              simpa using h
            rw [← hr]
            refine endsWellFrom_cons_of c (endsWellFrom_skipWs ?_)
            exact ⟨"\x7d".toList, take_drop_decomp 1 (skipWs cs) _ hb,
              by decide, by decide⟩
          · rw [if_neg hb] at h
            exact endsWellFrom_cons_of c
              (endsWellFrom_skipWs (ihM (skipWs cs) [] v rest h))
        rw [if_neg h2] at h
        by_cases h3 : c = '['
        · rw [if_pos h3] at h
          by_cases hb : (skipWs cs).take 1 = "]".toList
          · rw [if_pos hb] at h
            obtain ⟨-, hr⟩ : Json.arr [] = v ∧ (skipWs cs).drop 1 = rest := by
              simpa using h
            rw [← hr]
            refine endsWellFrom_cons_of c (endsWellFrom_skipWs ?_)
            exact ⟨"]".toList, take_drop_decomp 1 (skipWs cs) _ hb,
              by decide, by decide⟩
          · rw [if_neg hb] at h
            exact endsWellFrom_cons_of c
              (endsWellFrom_skipWs (ihE (skipWs cs) [] v rest h))
        rw [if_neg h3] at h
        by_cases h4 : c = 't'
        · rw [if_pos h4] at h
          by_cases ht : cs.take 3 = "rue".toList
          · rw [if_pos ht] at h
            obtain ⟨-, hr⟩ : Json.bool true = v ∧ cs.drop 3 = rest := by simpa using h
            rw [← hr]
            exact endsWellFrom_cons_of c
              ⟨"rue".toList, take_drop_decomp 3 cs _ ht, by decide, by decide⟩
          · rw [if_neg ht] at h
            simp at h
        rw [if_neg h4] at h
        by_cases h5 : c = 'f'
        · rw [if_pos h5] at h
          by_cases ht : cs.take 4 = "alse".toList
          · rw [if_pos ht] at h
            obtain ⟨-, hr⟩ : Json.bool false = v ∧ cs.drop 4 = rest := by simpa using h
            rw [← hr]
            exact endsWellFrom_cons_of c
              ⟨"alse".toList, take_drop_decomp 4 cs _ ht, by decide, by decide⟩
          · rw [if_neg ht] at h
            simp at h
        rw [if_neg h5] at h
        by_cases h6 : c = 'n'
        · rw [if_pos h6] at h
          by_cases ht : cs.take 3 = "ull".toList
          · rw [if_pos ht] at h
            obtain ⟨-, hr⟩ : Json.null = v ∧ cs.drop 3 = rest := by simpa using h
            rw [← hr]
            exact endsWellFrom_cons_of c
              ⟨"ull".toList, take_drop_decomp 3 cs _ ht, by decide, by decide⟩
          · rw [if_neg ht] at h
            simp at h
        rw [if_neg h6] at h
        by_cases h7 : c = 'N'
        · rw [if_pos h7] at h
          by_cases ht : cs.take 2 = "aN".toList
          · rw [if_pos ht] at h
            obtain ⟨-, hr⟩ : Json.num "NaN".toList = v ∧ cs.drop 2 = rest := by
              simpa using h
            rw [← hr]
            exact endsWellFrom_cons_of c
              ⟨"aN".toList, take_drop_decomp 2 cs _ ht, by decide, by decide⟩
          · rw [if_neg ht] at h
            simp at h
        rw [if_neg h7] at h
        by_cases h8 : c = 'I'
        · rw [if_pos h8] at h
          by_cases ht : cs.take 7 = "nfinity".toList
          · rw [if_pos ht] at h
            obtain ⟨-, hr⟩ : Json.num "Infinity".toList = v ∧ cs.drop 7 = rest := by
              simpa using h
            rw [← hr]
            exact endsWellFrom_cons_of c
              ⟨"nfinity".toList, take_drop_decomp 7 cs _ ht, by decide, by decide⟩
          · rw [if_neg ht] at h
            simp at h
        rw [if_neg h8] at h
        by_cases h9 : c = '-'
        · rw [if_pos h9] at h
          by_cases ht : cs.take 8 = "Infinity".toList
          · rw [if_pos ht] at h
            obtain ⟨-, hr⟩ : Json.num "-Infinity".toList = v ∧ cs.drop 8 = rest := by
              simpa using h
            rw [← hr]
            exact endsWellFrom_cons_of c
              ⟨"Infinity".toList, take_drop_decomp 8 cs _ ht, by decide, by decide⟩
          · rw [if_neg ht] at h
            split at h
            · simp at h
            · rename_i lex rem hnum
              obtain ⟨-, hr⟩ : Json.num ('-' :: lex) = v ∧ rem = rest := by
                simpa using h
              obtain ⟨hdec, hne, hlast⟩ := parseNumBody_consumes cs lex rem hnum
              rw [← hr]
              exact endsWellFrom_cons_of c ⟨lex, hdec, hne, hlast⟩
        rw [if_neg h9] at h
        by_cases h10 : isDigitChar c = true
        · rw [if_pos h10] at h
          split at h
          · simp at h
          · rename_i lex rem hnum
            obtain ⟨-, hr⟩ : Json.num lex = v ∧ rem = rest := by simpa using h
            obtain ⟨hdec, hne, hlast⟩ := parseNumBody_consumes (c :: cs) lex rem hnum
            rw [← hr]
            exact ⟨lex, hdec, hne, hlast⟩
        · rw [if_neg h10] at h
          simp at h
    · intro s acc v rest h
      match s with
      | [] => simp [parseMembers] at h
      | c :: rest1 =>
        rw [parseMembers] at h
        by_cases hq : c = '"'
        · rw [if_pos hq] at h
          split at h
          · simp at h
          · rename_i key afterKey hsb
            obtain ⟨preK, hK, -, -⟩ :=
              parseStringBody_consumes (rest1.length + 1) rest1 key afterKey hsb
            have s7 : skipWs afterKey <:+ afterKey := List.dropWhile_suffix _
            have s8 : afterKey <:+ rest1 := ⟨preK, hK.symm⟩
            by_cases hcolon : (skipWs afterKey).take 1 = ":".toList
            · rw [if_pos hcolon] at h
              split at h
              · simp at h
              · rename_i v2 afterVal hV
                have hvew := ihV _ v2 afterVal hV
                have s4 : afterVal <:+ skipWs ((skipWs afterKey).drop 1) :=
                  suffix_of_endsWellFrom hvew
                have s5 : skipWs ((skipWs afterKey).drop 1) <:+ (skipWs afterKey).drop 1 :=
                  List.dropWhile_suffix _
                have s6 : (skipWs afterKey).drop 1 <:+ skipWs afterKey :=
                  List.drop_suffix _ _
                have sAfterVal : afterVal <:+ rest1 :=
                  (((s4.trans s5).trans s6).trans s7).trans s8
                by_cases hcomma : (skipWs afterVal).take 1 = ",".toList
                · rw [if_pos hcomma] at h
                  have hmew := ihM _ _ v rest h
                  refine endsWellFrom_cons_of c (endsWellFrom_suffix ?_ hmew)
                  have t1 : skipWs ((skipWs afterVal).drop 1) <:+
                      (skipWs afterVal).drop 1 := List.dropWhile_suffix _
                  have t2 : (skipWs afterVal).drop 1 <:+ skipWs afterVal :=
                    List.drop_suffix _ _
                  have t3 : skipWs afterVal <:+ afterVal := List.dropWhile_suffix _
                  exact ((t1.trans t2).trans t3).trans sAfterVal
                · rw [if_neg hcomma] at h
                  by_cases hclose : (skipWs afterVal).take 1 = "\x7d".toList
                  · rw [if_pos hclose] at h
                    obtain ⟨-, hr⟩ : Json.obj (upsert key v2 acc) = v ∧
                        (skipWs afterVal).drop 1 = rest := by simpa using h
                    rw [← hr]
                    have hew : endsWellFrom (skipWs afterVal) ((skipWs afterVal).drop 1) :=
                      ⟨"\x7d".toList, take_drop_decomp 1 (skipWs afterVal) _ hclose,
                        by decide, by decide⟩
                    refine endsWellFrom_cons_of c (endsWellFrom_suffix ?_ hew)
                    exact (List.dropWhile_suffix _).trans sAfterVal
                  · rw [if_neg hclose] at h
                    simp at h
            · rw [if_neg hcolon] at h
              simp at h
        · rw [if_neg hq] at h
          simp at h
    · intro s acc v rest h
      rw [parseElements] at h
      split at h
      · simp at h
      · rename_i v2 afterVal hV
        have hvew := ihV s v2 afterVal hV
        have sAfterVal : afterVal <:+ s := suffix_of_endsWellFrom hvew
        by_cases hcomma : (skipWs afterVal).take 1 = ",".toList
        · rw [if_pos hcomma] at h
          have heew := ihE _ _ v rest h
          refine endsWellFrom_suffix ?_ heew
          have t1 : skipWs ((skipWs afterVal).drop 1) <:+ (skipWs afterVal).drop 1 :=
            List.dropWhile_suffix _
          have t2 : (skipWs afterVal).drop 1 <:+ skipWs afterVal :=
            List.drop_suffix _ _
          have t3 : skipWs afterVal <:+ afterVal := List.dropWhile_suffix _
          exact ((t1.trans t2).trans t3).trans sAfterVal
        · rw [if_neg hcomma] at h
          by_cases hclose : (skipWs afterVal).take 1 = "]".toList
          · rw [if_pos hclose] at h
            obtain ⟨-, hr⟩ : Json.arr (acc ++ [v2]) = v ∧
                (skipWs afterVal).drop 1 = rest := by simpa using h
            rw [← hr]
            have hew : endsWellFrom (skipWs afterVal) ((skipWs afterVal).drop 1) :=
              ⟨"]".toList, take_drop_decomp 1 (skipWs afterVal) _ hclose,
                by decide, by decide⟩
            refine endsWellFrom_suffix ?_ hew
            exact (List.dropWhile_suffix _).trans sAfterVal
          · rw [if_neg hclose] at h
            simp at h

theorem isJsonWs_le (c : Char) (h : isPySpace c = false) : isJsonWs c = false := by
  unfold isPySpace at h
  unfold isJsonWs
  simp only [Bool.or_eq_false_iff] at h ⊢
  exact h.1.1

theorem pySpace_of_jsonWs (c : Char) (h : isJsonWs c = true) :
    isPySpace c = true := by
  unfold isJsonWs at h
  unfold isPySpace
  simp only [Bool.or_eq_true] at h ⊢
  exact Or.inl (Or.inl h)

/-- A text that `json.loads` accepts, stripped of surrounding whitespace,
cannot begin or end with a backtick fence: the fence-stripping steps leave it
untouched. -/
theorem fence_free_of_parse (u : List Char)
    (hhead : ∀ c, u.head? = some c → isPySpace c = false)
    (hlast : ∀ c, u.getLast? = some c → isPySpace c = false)
    (r : Json) (hparse : json_loads u = some r) :
    fence_step_json u = u ∧ fence_step_plain u = u ∧ fence_step_close u = u ∧
    pyStrip u = u := by
  unfold json_loads at hparse
  have hskip : skipWs u = u :=
    dropWhile_eq_self_of_head u (fun c hc => isJsonWs_le c (hhead c hc))
  rw [hskip] at hparse
  split at hparse
  on_goal 2 => simp at hparse
  rename_i v rest hpv
  by_cases hrest : skipWs rest = []
  case neg =>
    rw [if_neg hrest] at hparse
    simp at hparse
  have hstart : jsonStarterHead u = true := by
    rcases hcu : u with _ | ⟨c, cs⟩
    · rw [hcu, parseValue_nil] at hpv
      simp at hpv
    · cases hst : jsonStarter c
      · rw [hcu, parseValue_not_starter _ c cs hst] at hpv
        simp at hpv
      · unfold jsonStarterHead
        rw [List.head?_cons]
        exact hst
  have hew : endsWellFrom u rest := (parse_consumes _).1 u v rest hpv
  have hrestnil : rest = [] := by
    rcases hrx : rest with _ | ⟨d, ds⟩
    · rfl
    · exfalso
      obtain ⟨pre, hdec, hne, -⟩ := hew
      have hall : ∀ x ∈ rest, isJsonWs x = true := List.dropWhile_eq_nil_iff.mp hrest
      have hlastu : u.getLast? = rest.getLast? := by
        rw [hdec]
        exact List.getLast?_append_of_ne_nil pre (by rw [hrx]; simp)
      rcases hgl : rest.getLast? with _ | g
      · rw [hrx] at hgl
        simp at hgl
      · have hg_mem : g ∈ rest := getLast?_mem_of_eq rest g hgl
        have hg_ws : isJsonWs g = true := hall g hg_mem
        have hg_py : isPySpace g = false := hlast g (by rw [hlastu, hgl])
        rw [pySpace_of_jsonWs g hg_ws] at hg_py
        exact absurd hg_py (by simp)
  subst hrestnil
  obtain ⟨pre, hdec, hne, hlastpre⟩ := hew
  rw [List.append_nil] at hdec
  have hendu : jsonEndCharLast u = true := by
    rw [hdec]
    exact hlastpre
  refine ⟨?_, ?_, ?_, ?_⟩
  · unfold fence_step_json pyStartsWith
    rw [if_neg ?hc1]
    case hc1 =>
      intro hcontra
      have hh := head_eq_of_isPrefixOf _ u (by decide) hcontra
      have hfalse : jsonStarterHead u = false := by
        unfold jsonStarterHead
        rw [hh]
        decide
      rw [hfalse] at hstart
      exact absurd hstart (by decide)
  · unfold fence_step_plain pyStartsWith
    rw [if_neg ?hc2]
    case hc2 =>
      intro hcontra
      have hh := head_eq_of_isPrefixOf _ u (by decide) hcontra
      have hfalse : jsonStarterHead u = false := by
        unfold jsonStarterHead
        rw [hh]
        decide
      rw [hfalse] at hstart
      exact absurd hstart (by decide)
  · unfold fence_step_close pyEndsWith
    rw [if_neg ?hc3]
    case hc3 =>
      intro hcontra
      have hls := isSuffixOf_getLast "```".toList u (by decide) hcontra
      have hfalse : jsonEndCharLast u = false := by
        unfold jsonEndCharLast
        rw [hls]
        decide
      rw [hfalse] at hendu
      exact absurd hendu (by decide)
  · refine pyStrip_eq_self u (dropWhile_eq_self_of_head u hhead) ?_
    refine dropWhile_eq_self_of_head u.reverse ?_
    intro c hc
    rw [List.head?_reverse] at hc
    exact hlast c hc

/-- An unfenced reply that parses passes through the fence-stripping pipeline
unchanged (up to the outer strip). -/
theorem strip_code_fences_of_parseable (t : List Char) (r : Json)
    (hparse : json_loads (pyStrip t) = some r) :
    strip_code_fences t = pyStrip t := by
  obtain ⟨hj, hp, hc, hs⟩ := fence_free_of_parse (pyStrip t)
    (fun c hc => pyStrip_head_not_space t c hc)
    (fun c hc => pyStrip_last_not_space t c hc) r hparse
  unfold strip_code_fences
  rw [hj, hp, hc, hs]

/-- C4: a model reply text that parses as JSON gives the same parsed result
whether it arrives bare or wrapped in a fenced code block — ```` ```json ````
or plain ```` ``` ````, with or without surrounding whitespace: the pipeline
removes exactly the one leading fence and the one trailing fence. -/
theorem fenced_reply_parses_identically (t : String) (r : Json)
    (w1 w2 : List Char)
    (hw1 : ∀ c ∈ w1, isPySpace c = true) (hw2 : ∀ c ∈ w2, isPySpace c = true)
    (hparse : json_loads (pyStrip t.toList) = some r) :
    identify_bird_parse t = r ∧
    identify_bird_parse ("```json\n" ++ t ++ "\n```") = r ∧
    identify_bird_parse ("```\n" ++ t ++ "\n```") = r ∧
    json_loads (strip_code_fences
      (w1 ++ ("```json\n".toList ++ t.toList ++ "\n```".toList) ++ w2)) = some r ∧
    json_loads (strip_code_fences
      (w1 ++ ("```\n".toList ++ t.toList ++ "\n```".toList) ++ w2)) = some r := by
  refine ⟨?_, ?_, ?_, ?_, ?_⟩
  · unfold identify_bird_parse
    rw [strip_code_fences_of_parseable t.toList r hparse, hparse]
  · unfold identify_bird_parse
    have htl : ("```json\n" ++ t ++ "\n```").toList =
        "```json\n".toList ++ t.toList ++ "\n```".toList := by
      simp [String.toList]
    have hwrap := strip_code_fences_json_wrapped t.toList [] [] (by simp) (by simp)
    rw [List.nil_append, List.append_nil] at hwrap
    rw [htl, hwrap, hparse]
  · unfold identify_bird_parse
    have htl : ("```\n" ++ t ++ "\n```").toList =
        "```\n".toList ++ t.toList ++ "\n```".toList := by
      simp [String.toList]
    have hwrap := strip_code_fences_plain_wrapped t.toList [] [] (by simp) (by simp)
    rw [List.nil_append, List.append_nil] at hwrap
    rw [htl, hwrap, hparse]
  · rw [strip_code_fences_json_wrapped t.toList w1 w2 hw1 hw2, hparse]
  · rw [strip_code_fences_plain_wrapped t.toList w1 w2 hw1 hw2, hparse]

/-- Witness for C4: the Northern Cardinal reply parses identically bare,
`json`-fenced, and plain-fenced, with surrounding whitespace. -/
theorem fenced_reply_parses_identically_witness :
    identify_bird_parse cardinalReply = cardinalValue ∧
    identify_bird_parse ("```json\n" ++ cardinalReply ++ "\n```") = cardinalValue ∧
    identify_bird_parse ("```\n" ++ cardinalReply ++ "\n```") = cardinalValue ∧
    json_loads (strip_code_fences
      (" ".toList ++ ("```json\n".toList ++ cardinalReply.toList ++ "\n```".toList) ++
        "\n ".toList)) = some cardinalValue ∧
    json_loads (strip_code_fences
      (" ".toList ++ ("```\n".toList ++ cardinalReply.toList ++ "\n```".toList) ++
        "\n ".toList)) = some cardinalValue :=
  fenced_reply_parses_identically cardinalReply cardinalValue
    " ".toList "\n ".toList (by decide) (by decide) rfl

end WesleyanBirder
